import Mathlib

/-!
# SearXNG-MCP: a shallow embedding of the server's core logic

This file embeds, in Lean 4, the pure content of the SearXNG-MCP bridge:

* the SearXNG backend client (`src/searxng.ts` — uncached legacy version, and
  `packages/searxng-mcp/src/searxng.ts` — current version with a configuration
  cache): query-string construction and the configuration-cache state machine;
* the two result formatters of `src/index.ts` (`formatSearchResults`,
  `formatEngines`) and their rewritten counterparts in the plugin module
  (XML-style search formatting, engine listing without status markers);
* the stateless tool-registration variant of the plugin module (client-supplied
  `engineUrl`);
* the HTTP transport dispatcher of `startHttpServer` (identical in all copies
  of the server file): request-body accumulation with a 1 MiB cap, the session
  registry held in two JS `Map`s (`transports`, `sessionLastActivity`), the
  session-initiation path with rollback on establishment failure, the periodic
  reaper, and the close callback.

JavaScript `Map` objects are modelled as association lists in insertion order
(`set` replaces in place or appends, `delete` filters by key), `Array.sort()`
with no comparator is modelled as a stable insertion sort over the
`ToString`-image of the elements (for an array `[cat, engineObjects]` that
string is `cat ++ "," ++ "[object Object]" ++ ...`, compared code-unit-wise;
all characters involved here are in the BMP, where JS UTF-16 code-unit order
and Lean `Char` order agree), and JS truthiness of strings/numbers/objects is
spelled out at each use site.  Effects (the actual HTTP fetch, `JSON.parse`,
the MCP transport handshake) enter the model as explicit outcome parameters.
-/

/-! ## JS primitives: Map, default Array.sort order, string helpers -/

/-- JS `Map.has`: is there an entry with this key? -/
def jsMapHas [BEq α] (m : List (α × β)) (k : α) : Bool :=
  m.any (fun p => p.1 == k)

/-- JS `Map.get`, as an `Option`: value of the first (unique) entry with key `k`. -/
def jsMapGet [BEq α] (m : List (α × β)) (k : α) : Option β :=
  (m.find? (fun p => p.1 == k)).map Prod.snd

/-- JS `Map.set`: replace in place if the key exists, else append at the end
(JS `Map` preserves insertion order). -/
def jsMapSet [BEq α] (m : List (α × β)) (k : α) (v : β) : List (α × β) :=
  if jsMapHas m k then m.map (fun p => if p.1 == k then (k, v) else p)
  else m ++ [(k, v)]

/-- JS `Map.delete`: remove the entry with this key. -/
def jsMapDeleteKey [BEq α] (m : List (α × β)) (k : α) : List (α × β) :=
  m.filter (fun p => !(p.1 == k))

/-- Keys of the map, in insertion order. -/
def jsMapKeys (m : List (α × β)) : List α :=
  m.map Prod.fst

/-- Code-unit-wise strict order on character lists (the order JS `<` puts on
strings; identical to code-point order on the BMP). -/
def lexLtB : List Char → List Char → Bool
  | [], [] => false
  | [], _ :: _ => true
  | _ :: _, [] => false
  | a :: as, b :: bs => if a < b then true else if b < a then false else lexLtB as bs

/-- Strict string order used by JS default `Array.sort` after `ToString`. -/
def strLtB (s t : String) : Bool :=
  lexLtB s.data t.data

/-- Test `preB p s`: is `p` a leading segment of `s` (computable)? -/
def preB : List Char → List Char → Bool
  | [], _ => true
  | _ :: _, [] => false
  | a :: as, b :: bs => a == b && preB as bs

/-- Test `preBs p s`: is the string `p` a leading segment of the string `s`? -/
def preBs (p s : String) : Bool :=
  preB p.data s.data

/-- JS `charAt(0).toUpperCase() + slice(1)`.  `Char.toUpper` only maps ASCII
letters; the source only ever feeds it SearXNG category names, which are ASCII. -/
def capitalizeJs (s : String) : String :=
  match s.data with
  | [] => ""
  | c :: rest => String.mk (c.toUpper :: rest)

/-- JS string interpolation of a possibly-`undefined` value. -/
def optJs : Option String → String
  | none => "undefined"
  | some s => s

/-- JS truthiness of an optional string (`undefined` and `""` are falsy). -/
def strTruthy : Option String → Bool
  | none => false
  | some s => !(s == "")

/-! ## Data model (`searxng.ts` interfaces)

Fields never read by the embedded code (`thumbnail`, `score`, `shortcut`,
`language_support`, `paging`, `safesearch`, `time_range_support`, locale data)
are omitted: they flow through the JSON decoding opaquely. -/

/-- Interface `SearXNGSearchResult`: `title` and `url` are required, the rest optional. -/
structure SearXNGSearchResult where
  title : String
  url : String
  content : Option String
  engine : Option String
  publishedDate : Option String
deriving DecidableEq, Repr

/-- Interface `SearXNGEngine`: one engine record of the `/config` response. -/
structure SearXNGEngine where
  name : String
  categories : List String
  enabled : Bool
deriving DecidableEq, Repr

/-- Interface `SearXNGConfigResponse`: the two fields the code reads.  They are kept
optional so that the `config.engines || []` / `config.categories || []`
defaulting in the source stays visible. -/
structure SearXNGConfigResponse where
  engines : Option (List SearXNGEngine)
  categories : Option (List String)
deriving DecidableEq, Repr

/-- The `time_range` enumeration of `SearXNGSearchParams`. -/
inductive TimeRange
  | day
  | week
  | month
  | year
deriving DecidableEq, Repr

/-- The query-string value of a `TimeRange`. -/
def TimeRange.toValue : TimeRange → String
  | .day => "day"
  | .week => "week"
  | .month => "month"
  | .year => "year"

/-- Interface `SearXNGSearchParams`.  `pageno` and `safesearch` are JS numbers; the code
only ever reads them at non-negative integer values, so `Nat` is faithful. -/
structure SearXNGSearchParams where
  query : String
  categories : Option (List String)
  engines : Option (List String)
  language : Option String
  pageno : Option Nat
  time_range : Option TimeRange
  safesearch : Option Nat
deriving DecidableEq, Repr

/-! ## `SearXNGClient.search`: query-string construction

`search` builds a `URL` for `/search` and `set`s parameters on it in source
order; every key is set at most once, so the resulting query string is the
ordered list of `(key, value)` pairs below.  Both client versions
(`src/searxng.ts` lines 65-95 and `packages/searxng-mcp/src/searxng.ts` lines
60-87) contain the identical construction. -/

/-- The `categories` segment: set iff `params.categories && params.categories.length > 0`. -/
def catParam (p : SearXNGSearchParams) : List (String × String) :=
  match p.categories with
  | some l => if 0 < l.length then [("categories", String.intercalate "," l)] else []
  | none => []

/-- The `engines` segment: set iff `params.engines && params.engines.length > 0`. -/
def engParam (p : SearXNGSearchParams) : List (String × String) :=
  match p.engines with
  | some l => if 0 < l.length then [("engines", String.intercalate "," l)] else []
  | none => []

/-- The `language` segment: set iff `params.language` is truthy (non-empty string). -/
def langParam (p : SearXNGSearchParams) : List (String × String) :=
  match p.language with
  | some s => if s == "" then [] else [("language", s)]
  | none => []

/-- The `pageno` segment: set iff `params.pageno` is truthy (a number is falsy
exactly at `0`). -/
def pageParam (p : SearXNGSearchParams) : List (String × String) :=
  match p.pageno with
  | some n => if n == 0 then [] else [("pageno", toString n)]
  | none => []

/-- The `time_range` segment: set iff present (its values are non-empty strings,
hence truthy). -/
def timeParam (p : SearXNGSearchParams) : List (String × String) :=
  match p.time_range with
  | some tr => [("time_range", tr.toValue)]
  | none => []

/-- The `safesearch` segment: set iff `params.safesearch !== undefined`
(so the value `0` is included). -/
def safeParam (p : SearXNGSearchParams) : List (String × String) :=
  match p.safesearch with
  | some k => [("safesearch", toString k)]
  | none => []

/-- The full ordered query-parameter list built by `SearXNGClient.search`:
`q` and `format=json` always, followed by the optional segments in source order. -/
def searchQueryParams (p : SearXNGSearchParams) : List (String × String) :=
  [("q", p.query), ("format", "json")]
    ++ catParam p ++ engParam p ++ langParam p ++ pageParam p ++ timeParam p ++ safeParam p

/-- Does the built query string carry a parameter with this key? -/
def hasParam (qs : List (String × String)) (k : String) : Bool :=
  (qs.map Prod.fst).contains k

/-! ## Configuration fetch and its cache

The current client (`packages/searxng-mcp/src/searxng.ts`) keeps a single
cached `configCache` slot with `configCacheTime`, TTL 5 minutes; `getEngines`
and `getCategories` both go through `fetchConfig`.  The HTTP round trip is an
explicit parameter (`response`); the third component counts backend fetches
issued by the call (0 or 1). -/

/-- Constant `CONFIG_CACHE_TTL_MS = 5 * 60 * 1000`. -/
def CONFIG_CACHE_TTL_MS : Nat := 5 * 60 * 1000

/-- The private cache fields of a `SearXNGClient` instance.  A fresh client has
`configCache = null` and `configCacheTime = 0`. -/
structure ClientCacheState where
  configCache : Option SearXNGConfigResponse
  configCacheTime : Nat
deriving DecidableEq, Repr

/-- Method `SearXNGClient.fetchConfig`: serve the cache while
`configCache && (now - configCacheTime) < TTL`, otherwise perform one fetch;
on success store the config and the fetch time before returning.  A failed
fetch (`response` not ok / network error) throws and leaves the cache slot
untouched. -/
def fetchConfig (s : ClientCacheState) (now : Nat)
    (response : Except String SearXNGConfigResponse) :
    Except String SearXNGConfigResponse × ClientCacheState × Nat :=
  match s.configCache with
  | some c =>
    if now - s.configCacheTime < CONFIG_CACHE_TTL_MS then (Except.ok c, s, 0)
    else
      match response with
      | Except.ok cfg => (Except.ok cfg, ⟨some cfg, now⟩, 1)
      | Except.error e => (Except.error e, s, 1)
  | none =>
    match response with
    | Except.ok cfg => (Except.ok cfg, ⟨some cfg, now⟩, 1)
    | Except.error e => (Except.error e, s, 1)

/-- Method `SearXNGClient.getEngines` (cached client): `(await fetchConfig()).engines || []`. -/
def getEnginesCached (s : ClientCacheState) (now : Nat)
    (response : Except String SearXNGConfigResponse) :
    Except String (List SearXNGEngine) × ClientCacheState × Nat :=
  match fetchConfig s now response with
  | (Except.ok cfg, s1, n) => (Except.ok (cfg.engines.getD []), s1, n)
  | (Except.error e, s1, n) => (Except.error e, s1, n)

/-- Method `SearXNGClient.getCategories` (cached client): `(await fetchConfig()).categories || []`. -/
def getCategoriesCached (s : ClientCacheState) (now : Nat)
    (response : Except String SearXNGConfigResponse) :
    Except String (List String) × ClientCacheState × Nat :=
  match fetchConfig s now response with
  | (Except.ok cfg, s1, n) => (Except.ok (cfg.categories.getD []), s1, n)
  | (Except.error e, s1, n) => (Except.error e, s1, n)

/-- Which configuration operation a caller invoked. -/
inductive ConfigOp
  | engines
  | categories
deriving DecidableEq, Repr

/-- The observables of one `getEngines`/`getCategories` call on the cached
client: whether it succeeded, the cache state it leaves behind, and how many
backend fetches it issued. -/
structure ConfigCallOut where
  ok : Bool
  state : ClientCacheState
  fetches : Nat
deriving DecidableEq, Repr

/-- Run one configuration operation on the cached client and record its
observables. -/
def runConfigOp (op : ConfigOp) (s : ClientCacheState) (now : Nat)
    (response : Except String SearXNGConfigResponse) : ConfigCallOut :=
  match op with
  | .engines =>
    match getEnginesCached s now response with
    | (Except.ok _, s1, n) => ⟨true, s1, n⟩
    | (Except.error _, s1, n) => ⟨false, s1, n⟩
  | .categories =>
    match getCategoriesCached s now response with
    | (Except.ok _, s1, n) => ⟨true, s1, n⟩
    | (Except.error _, s1, n) => ⟨false, s1, n⟩

/-- Method `SearXNGClient.getEngines` of the legacy client (`src/searxng.ts` lines
116-133): no cache field exists; every call performs exactly one fetch of
`/config` and returns `data.engines || []`.  The second component counts the
fetches issued by the call. -/
def getEnginesLegacy (response : Except String SearXNGConfigResponse) :
    Except String (List SearXNGEngine) × Nat :=
  match response with
  | Except.ok cfg => (Except.ok (cfg.engines.getD []), 1)
  | Except.error e => (Except.error e, 1)

/-! ## Search-result formatting

`formatSearchResults` of `src/index.ts` (lines 130-157) renders a numbered
plain-text block per result; the plugin module
(`registerSearchTool`'s `formatSearchResults`) was rewritten to emit an
XML-ish fragment and lost the empty-input special case.  The JS
`results.map((result, index) => ...)` is modelled by `mapWithIndex`. -/

/-- JS `Array.prototype.map` with the element index, starting at `n`. -/
def mapWithIndex (f : Nat → α → β) : Nat → List α → List β
  | _, [] => []
  | n, x :: xs => f n x :: mapWithIndex f (n + 1) xs

/-- The body of the `map` callback in `formatSearchResults` (`src/index.ts`):
always the numbered title line and the URL line, then the truthiness-guarded
content / engine / publishedDate lines, joined with `"\n"`. -/
def renderSearchResult (n : Nat) (r : SearXNGSearchResult) : String :=
  String.intercalate "\n"
    ([toString n ++ ". " ++ r.title, "   URL: " ++ r.url]
      ++ (if strTruthy r.content then ["   " ++ optJs r.content] else [])
      ++ (if strTruthy r.engine then ["   Engine: " ++ optJs r.engine] else [])
      ++ (if strTruthy r.publishedDate then ["   Published: " ++ optJs r.publishedDate] else []))

/-- The `formatted` array of `formatSearchResults` (`src/index.ts`). -/
def formatBlocks (results : List SearXNGSearchResult) : List String :=
  mapWithIndex (fun i r => renderSearchResult (i + 1) r) 0 results

/-- Function `formatSearchResults` (`src/index.ts` lines 130-157). -/
def formatSearchResults (results : List SearXNGSearchResult) : String :=
  if results.length == 0 then "No results found."
  else
    "Found " ++ toString results.length ++ " results:\n\n"
      ++ String.intercalate "\n\n" (formatBlocks results)

/-- The template-literal body of the plugin module's `formatSearchResults`:
note the leading/trailing newlines of the backtick literal, and that the JS
interpolation prints absent optional fields as `"undefined"`. -/
def renderSearchResultX (n : Nat) (r : SearXNGSearchResult) : String :=
  "\n  <result index=\"" ++ toString n ++ "\" url=\"" ++ r.url
    ++ "\" engine=\"" ++ optJs r.engine ++ "\" date=\"" ++ optJs r.publishedDate
    ++ "\">\n    <result.title>" ++ r.title ++ "</result.title>\n    "
    ++ optJs r.content ++ "\n  </result>\n"

/-- The `resultsCore` array of the plugin module's `formatSearchResults`. -/
def formatBlocksX (results : List SearXNGSearchResult) : List String :=
  mapWithIndex (fun i r => renderSearchResultX (i + 1) r) 0 results

/-- The plugin module's `formatSearchResults`:
`'<results>\n' + resultsCore + '\n</results>'`.  Adding a JS array to a string
converts it with `Array.prototype.toString`, i.e. `join(",")`; in particular an
empty `resultsCore` contributes the empty string, and there is no
"No results found." special case in this version. -/
def formatSearchResultsX (results : List SearXNGSearchResult) : String :=
  "<results>\n" ++ String.intercalate "," (formatBlocksX results) ++ "\n</results>"

/-! ## Engine formatting

Both `formatEngines` versions build a `Map<string, SearXNGEngine[]>` keyed by
category (an engine is pushed into the group of each of its categories, in
source order), then render `Array.from(byCategory.entries()).sort()`.  The
default `sort` comparator stringifies each `[category, engines]` pair —
`category ++ "," ++ "[object Object]" (join ",")` — and compares code units.
The `src/index.ts` version prefixes each engine with a `✓`/`✗` status marker;
the plugin version prints the bare engine name. -/

/-- One iteration of the inner `for (const category of engine.categories)`
loop: `list = byCategory.get(category) || []; list.push(engine); byCategory.set(category, list)`. -/
def addToCategory (m : List (String × List SearXNGEngine)) (e : SearXNGEngine)
    (c : String) : List (String × List SearXNGEngine) :=
  jsMapSet m c ((jsMapGet m c).getD [] ++ [e])

/-- The inner loop over one engine's categories. -/
def addEngineCats (m : List (String × List SearXNGEngine)) (e : SearXNGEngine) :
    List (String × List SearXNGEngine) :=
  e.categories.foldl (fun m c => addToCategory m e c) m

/-- The `byCategory` map after the outer loop over all engines. -/
def buildCategoryMap (engines : List SearXNGEngine) :
    List (String × List SearXNGEngine) :=
  engines.foldl addEngineCats []

/-- JS `String([category, engines])`: the key the default `Array.sort`
comparator actually compares. -/
def jsEntryKey (p : String × List SearXNGEngine) : String :=
  p.1 ++ "," ++ String.intercalate "," (p.2.map (fun _ => "[object Object]"))

/-- The total preorder the default sort puts on `[category, engines]` entries. -/
def entryLe (p q : String × List SearXNGEngine) : Prop :=
  strLtB (jsEntryKey q) (jsEntryKey p) = false

instance : DecidableRel entryLe := fun _ _ =>
  inferInstanceAs (Decidable (_ = false))

/-- JS `Array.from(byCategory.entries()).sort()`: a stable ascending sort by the
stringified entry (JS `Array.sort` is stable, so any stable sorting algorithm
computes the same list; insertion sort is one). -/
def sortedEntries (engines : List SearXNGEngine) :
    List (String × List SearXNGEngine) :=
  List.insertionSort entryLe (buildCategoryMap engines)

/-- An engine line of `formatEngines` (`src/index.ts`): status marker and name. -/
def engineLine (e : SearXNGEngine) : String :=
  "  " ++ (if e.enabled then "✓" else "✗") ++ " " ++ e.name

/-- An engine line of the plugin module's `formatEngines`: name only. -/
def engineLineX (e : SearXNGEngine) : String :=
  "  " ++ e.name

/-- Function `formatEngines` (`src/index.ts` lines 159-185): the `lines` array starts
with the total count, then for each sorted group a `\n## Category` heading
(first character upper-cased) followed by its engine lines; joined with `"\n"`. -/
def formatEngines (engines : List SearXNGEngine) : String :=
  if engines.length == 0 then "No engines available."
  else
    String.intercalate "\n"
      (("Available engines (" ++ toString engines.length ++ " total):")
        :: ((sortedEntries engines).map
              (fun p => ("\n## " ++ capitalizeJs p.1) :: p.2.map engineLine)).flatten)

/-- The plugin module's `formatEngines`: identical except engine lines carry no
enabled/disabled marker. -/
def formatEnginesX (engines : List SearXNGEngine) : String :=
  if engines.length == 0 then "No engines available."
  else
    String.intercalate "\n"
      (("Available engines (" ++ toString engines.length ++ " total):")
        :: ((sortedEntries engines).map
              (fun p => ("\n## " ++ capitalizeJs p.1) :: p.2.map engineLineX)).flatten)

/-! ## Specification-side engine formatter

Written from the spec's words ("groups the returned engines by each category
they belong to, renders a heading per category sorted lexicographically, and
lists engines with an enabled/disabled marker"), to be compared with the
`formatEngines` definitions above: categories in order of first appearance,
deduplicated; each category's group is the subsequence of engines that belong
to it; headings in lexicographic category order. -/

/-- First-occurrence deduplication, with an accumulator of already-seen values. -/
def dedupFirstAux [BEq α] : List α → List α → List α
  | _, [] => []
  | seen, c :: rest =>
    if seen.contains c then dedupFirstAux seen rest
    else c :: dedupFirstAux (seen ++ [c]) rest

/-- First-occurrence deduplication. -/
def dedupFirst [BEq α] (l : List α) : List α :=
  dedupFirstAux [] l

/-- Every category mentioned by some engine, with repetitions, in source order. -/
def allCats (engines : List SearXNGEngine) : List String :=
  (engines.map (fun e => e.categories)).flatten

/-- The distinct categories, in first-appearance order. -/
def dedupCats (engines : List SearXNGEngine) : List String :=
  dedupFirst (allCats engines)

/-- The engines belonging to category `c`, in source order. -/
def enginesOfCat (engines : List SearXNGEngine) (c : String) : List SearXNGEngine :=
  engines.filter (fun e => e.categories.contains c)

/-- The grouping, spec-side: one entry per distinct category, holding exactly
the engines that belong to it. -/
def specGroups (engines : List SearXNGEngine) : List (String × List SearXNGEngine) :=
  (dedupCats engines).map (fun c => (c, enginesOfCat engines c))

/-- Lexicographic (code-unit) order on category names. -/
def catLe (c1 c2 : String) : Prop :=
  strLtB c2 c1 = false

instance : DecidableRel catLe := fun _ _ =>
  inferInstanceAs (Decidable (_ = false))

/-- The distinct categories in lexicographic order. -/
def sortedCats (engines : List SearXNGEngine) : List String :=
  List.insertionSort catLe (dedupCats engines)

/-- Spec-side engine formatter: heading per category in lexicographic order,
each engine listed with its enabled/disabled marker under every category it
belongs to. -/
def formatEnginesSpec (engines : List SearXNGEngine) : String :=
  if engines.length == 0 then "No engines available."
  else
    String.intercalate "\n"
      (("Available engines (" ++ toString engines.length ++ " total):")
        :: ((sortedCats engines).map
              (fun c => ("\n## " ++ capitalizeJs c)
                :: (enginesOfCat engines c).map engineLine)).flatten)

/-- Spec-side formatter for the plugin variant (bare engine names). -/
def formatEnginesSpecX (engines : List SearXNGEngine) : String :=
  if engines.length == 0 then "No engines available."
  else
    String.intercalate "\n"
      (("Available engines (" ++ toString engines.length ++ " total):")
        :: ((sortedCats engines).map
              (fun c => ("\n## " ++ capitalizeJs c)
                :: (enginesOfCat engines c).map engineLineX)).flatten)

/-! ## Tool handlers (plugin module)

`createErrorResponse` wraps any error thrown inside a handler's `try` block
into a result envelope with `isError: true`.  The backend round trip enters as
an `Except` outcome.  In the stateless variant (`registerSearchTool` /
`registerGetEnginesTool` called without a client) the schemas additionally
require `engineUrl`; the `search` callback guards `!args.engineUrl`
explicitly, while the `get_engines` callback constructs
`new SearXNGClient(args.engineUrl)` unguarded — with `engineUrl` absent the
constructor's `baseUrl.replace(...)` throws a `TypeError` outside any `try`,
so no envelope is produced by this repository's code (modelled as
`Except.error`). -/

/-- A tool call result: the single text content item and the `isError` flag. -/
structure CallToolResult where
  text : String
  isError : Bool
deriving DecidableEq, Repr

/-- Function `createErrorResponse(error, context)`. -/
def createErrorResponse (message : String) (context : String) : CallToolResult :=
  ⟨"Error " ++ context ++ ": " ++ message, true⟩

/-- Function `searchToolHandlerBase`: format on success, convert a thrown backend error
into an error envelope.  The plugin module formats with its own (XML-style)
`formatSearchResults`. -/
def searchToolHandlerBase (outcome : Except String (List SearXNGSearchResult)) :
    CallToolResult :=
  match outcome with
  | Except.ok results => ⟨formatSearchResultsX results, false⟩
  | Except.error m => createErrorResponse m "performing search"

/-- Function `getEnginesToolHandlerBase`: same conversion for `get_engines`. -/
def getEnginesToolHandlerBase (outcome : Except String (List SearXNGEngine)) :
    CallToolResult :=
  match outcome with
  | Except.ok engines => ⟨formatEnginesX engines, false⟩
  | Except.error m => createErrorResponse m "fetching engines"

/-- The stateless `search` callback (`registerSearchTool` without a client):
`if (!args.engineUrl) return createErrorResponse(...)`, else run the base
handler against a per-call client.  It can not throw: `Except.error` never
occurs. -/
def searchStatelessCallback (engineUrl : Option String)
    (outcome : Except String (List SearXNGSearchResult)) :
    Except String CallToolResult :=
  if strTruthy engineUrl then Except.ok (searchToolHandlerBase outcome)
  else Except.ok (createErrorResponse "engineUrl is required" "initializing SearXNG client")

/-- The stateless `get_engines` callback (`registerGetEnginesTool` without a
client): `getEnginesToolHandlerBase(new SearXNGClient(args.engineUrl))` with no
guard — a missing `engineUrl` makes the constructor throw a `TypeError`
before any handler `try` is entered. -/
def getEnginesStatelessCallback (engineUrl : Option String)
    (outcome : Except String (List SearXNGEngine)) :
    Except String CallToolResult :=
  match engineUrl with
  | none => Except.error "TypeError: Cannot read properties of undefined (reading 'replace')"
  | some _ => Except.ok (getEnginesToolHandlerBase outcome)

/-- A field of a zod input schema: name and whether it is required. -/
structure SchemaField where
  name : String
  required : Bool
deriving DecidableEq, Repr

/-- The stateless `search` input schema: `BASIC_SEARCH_SCHEMA` plus the
required `engineUrl : z.string().url()`. -/
def searchStatelessSchema : List SchemaField :=
  [⟨"query", true⟩, ⟨"categories", false⟩, ⟨"engines", false⟩, ⟨"language", false⟩,
   ⟨"pageno", false⟩, ⟨"time_range", false⟩, ⟨"safesearch", false⟩, ⟨"engineUrl", true⟩]

/-- The stateless `get_engines` input schema: only the required `engineUrl`. -/
def getEnginesStatelessSchema : List SchemaField :=
  [⟨"engineUrl", true⟩]

/-! ## The HTTP transport dispatcher (`startHttpServer`)

The request handler closed over the two maps

```
const transports = new Map<string, StreamableHTTPServerTransport>();
const sessionLastActivity = new Map<string, number>();
```

is modelled as a state transformer.  Transport objects are identified by a
`Nat` drawn from a counter (`nextTransport`), object identity (`t === transport`)
becoming equality of those identifiers.  What the MCP SDK does inside
`server.connect(transport)` / `transport.handleRequest(...)` — whether the
`onsessioninitialized` callback fired, with which generated session id, and
whether the awaited calls threw — enters the model as an `InitOutcome`
parameter, and `JSON.parse` as a validity predicate on the accumulated bytes. -/

/-- Constant `MAX_REQUEST_BODY_SIZE = 1024 * 1024`. -/
def MAX_REQUEST_BODY_SIZE : Nat := 1024 * 1024

/-- Constant `SESSION_TIMEOUT_MS = 30 * 60 * 1000`. -/
def SESSION_TIMEOUT_MS : Nat := 30 * 60 * 1000

/-- The request method, as the dispatcher distinguishes it. -/
inductive HMethod
  | post
  | get
  | delete
  | other
deriving DecidableEq, Repr

/-- An inbound HTTP request: whether the path is `/mcp`, the method, the
`mcp-session-id` header if present, and the body chunks (byte lists) the
stream delivers. -/
structure HRequest where
  mcpPath : Bool
  method : HMethod
  sessionId : Option String
  chunks : List (List Nat)
deriving Repr

/-- What happened inside `server.connect` + `transport.handleRequest` on the
session-initiation path: did `onsessioninitialized` fire (and with which
generated id, at which time), and did the awaited pair throw? -/
inductive InitOutcome
  | okInit (sid : String) (t : Nat)
  | okNoInit
  | failInit (sid : String) (t : Nat)
  | failNoInit
deriving DecidableEq, Repr

/-- The response classes the dispatcher can produce. -/
inductive HResponse
  | notFound
  | tooLarge
  | badJson
  | delegated
  | initFailed
  | sessionRequired
  | methodNotAllowed
deriving DecidableEq, Repr

/-- The server state: the two session maps and the transport-identity counter. -/
structure ServerState where
  transports : List (String × Nat)
  sessionLastActivity : List (String × Nat)
  nextTransport : Nat
deriving DecidableEq, Repr

/-- The state at server start: both maps empty. -/
def initialState : ServerState :=
  ⟨[], [], 0⟩

/-- The body-accumulation loop: add each chunk's length to the running total
and abort with `413` (here: `none`) as soon as the total exceeds the limit,
without touching the remaining chunks; otherwise the accumulated bytes. -/
def accumulateBody : List (List Nat) → Nat → Option (List Nat)
  | [], _ => some []
  | c :: rest, total =>
    if MAX_REQUEST_BODY_SIZE < total + c.length then none
    else (accumulateBody rest (total + c.length)).map (fun bs => c ++ bs)

/-- The POST body stage: `some resp` is an early `413`/`400` return, `none`
means the parsed payload is available and handling continues. -/
def bodyOutcome (parse : List Nat → Bool) (r : HRequest) : Option HResponse :=
  if r.method == HMethod.post then
    match accumulateBody r.chunks 0 with
    | none => some HResponse.tooLarge
    | some bytes => if parse bytes then none else some HResponse.badJson
  else none

/-- Check `sessionId && transports.has(sessionId)`: the id under which an existing
transport will handle this request, if any. -/
def sessionHit (sid : Option String) (s : ServerState) : Option String :=
  match sid with
  | some sid => if jsMapHas s.transports sid then some sid else none
  | none => none

/-- Update `sessionLastActivity.set(sessionId, Date.now())` on the reuse path. -/
def touchSession (s : ServerState) (sid : String) (now : Nat) : ServerState :=
  { s with sessionLastActivity := jsMapSet s.sessionLastActivity sid now }

/-- The `onsessioninitialized` callback: index the new transport under the
generated id and record the current time, in both maps. -/
def registerSession (s : ServerState) (sid : String) (tr : Nat) (t : Nat) :
    ServerState :=
  { s with
    transports := jsMapSet s.transports sid tr
    sessionLastActivity := jsMapSet s.sessionLastActivity sid t }

/-- The `catch` block of the initiation path: scan `transports.entries()` for
entries holding this very transport object and delete each such session id
from both maps. -/
def rollbackTransport (s : ServerState) (tr : Nat) : ServerState :=
  let victims := (s.transports.filter (fun p => p.2 == tr)).map Prod.fst
  { s with
    transports := s.transports.filter (fun p => !(victims.contains p.1))
    sessionLastActivity := s.sessionLastActivity.filter (fun p => !(victims.contains p.1)) }

/-- The session-initiation path: allocate the transport object, run the
establishment (outcome supplied), and on a throw roll back whatever the
`onsessioninitialized` callback registered, answering `500`. -/
def initPath (s : ServerState) (init : InitOutcome) : ServerState × HResponse :=
  let tr := s.nextTransport
  let s1 := { s with nextTransport := tr + 1 }
  match init with
  | .okInit sid t => (registerSession s1 sid tr t, HResponse.delegated)
  | .okNoInit => (s1, HResponse.delegated)
  | .failInit sid t => (rollbackTransport (registerSession s1 sid tr t) tr, HResponse.initFailed)
  | .failNoInit => (rollbackTransport s1 tr, HResponse.initFailed)

/-- The request handler of `startHttpServer`, in source order: `404` off
`/mcp`; POST body accumulation and parsing; reuse (+`touch`) of a registered
session; session initiation for POST; `400` for GET/DELETE without a
registered session; `405` otherwise. -/
def handleRequest (parse : List Nat → Bool) (r : HRequest) (now : Nat)
    (init : InitOutcome) (s : ServerState) : ServerState × HResponse :=
  if !r.mcpPath then (s, HResponse.notFound)
  else
    match bodyOutcome parse r with
    | some resp => (s, resp)
    | none =>
      match sessionHit r.sessionId s with
      | some sid => (touchSession s sid now, HResponse.delegated)
      | none =>
        if r.method == HMethod.post then initPath s init
        else if r.method == HMethod.get || r.method == HMethod.delete then
          (s, HResponse.sessionRequired)
        else (s, HResponse.methodNotAllowed)

/-- The `onsessionclosed` callback: delete the session id from both maps. -/
def closeSession (s : ServerState) (sid : String) : ServerState :=
  { s with
    transports := jsMapDeleteKey s.transports sid
    sessionLastActivity := jsMapDeleteKey s.sessionLastActivity sid }

/-- One tick of the cleanup interval: collect every session id whose last
activity is more than `SESSION_TIMEOUT_MS` ago and delete it from both maps.
(JS `now - lastActivity` on a future timestamp is negative, hence not above
the timeout; truncated `Nat` subtraction gives `0`, agreeing.) -/
def reapTick (s : ServerState) (now : Nat) : ServerState :=
  let expired := (s.sessionLastActivity.filter
    (fun p => SESSION_TIMEOUT_MS < now - p.2)).map Prod.fst
  { s with
    transports := s.transports.filter (fun p => !(expired.contains p.1))
    sessionLastActivity := s.sessionLastActivity.filter (fun p => !(expired.contains p.1)) }

/-- Every entry point that can mutate the two session maps: an inbound request
(with its establishment/parse outcomes), the `onsessionclosed` callback, and a
reaper tick.  `parseOk` suffices for the request case because the handler
applies the parse function to a single byte string. -/
inductive SEvent
  | req (r : HRequest) (now : Nat) (init : InitOutcome) (parseOk : Bool)
  | close (sid : String)
  | reap (now : Nat)

/-- Apply one event to the server state. -/
def applyEvent (s : ServerState) : SEvent → ServerState
  | .req r now init parseOk => (handleRequest (fun _ => parseOk) r now init s).1
  | .close sid => closeSession s sid
  | .reap now => reapTick s now

/-- Apply a whole event history in order. -/
def applyEvents (es : List SEvent) (s : ServerState) : ServerState :=
  es.foldl applyEvent s

/-- The registry alignment invariant: `transports` and `sessionLastActivity`
hold exactly the same session ids, in the same insertion order. -/
def keysAligned (s : ServerState) : Prop :=
  jsMapKeys s.transports = jsMapKeys s.sessionLastActivity

/-- Total size in bytes of a chunked request body. -/
def totalLen (chunks : List (List Nat)) : Nat :=
  (chunks.map List.length).sum

/-! # Helper lemmas -/

theorem beq_string_iff {a b : String} : (a == b) = true ↔ a = b := by
  exact beq_iff_eq

theorem jsMapGet_mem {m : List (String × β)} {k : String} {v : β}
    (h : jsMapGet m k = some v) : (k, v) ∈ m := by
  unfold jsMapGet at h
  rcases hf : m.find? (fun p => p.1 == k) with _ | p
  · rw [hf] at h; simp at h
  · rw [hf] at h
    simp only [Option.map] at h
    have hmem := List.mem_of_find?_eq_some hf
    have hkey := List.find?_some hf
    simp only [beq_iff_eq] at hkey
    cases p with
    | mk a b =>
      simp only at hkey h
      obtain rfl : b = v := Option.some.inj h
      subst hkey
      exact hmem

theorem jsMapGet_filter_not_contains {m : List (String × β)} {victims : List String}
    {k : String} (hk : victims.contains k = true) :
    jsMapGet (m.filter (fun p => !(victims.contains p.1))) k = none := by
  unfold jsMapGet
  have h : (m.filter (fun p => !(victims.contains p.1))).find? (fun p => p.1 == k) = none := by
    rw [List.find?_eq_none]
    intro p hp hpk
    have hmem := List.of_mem_filter hp
    simp only [beq_iff_eq] at hpk
    rw [hpk, hk] at hmem
    simp at hmem
  rw [h]
  rfl

theorem jsMapSet_self_mem [BEq α] [LawfulBEq α] (m : List (α × β)) (k : α) (v : β) :
    (k, v) ∈ jsMapSet m k v := by
  unfold jsMapSet
  by_cases h : jsMapHas m k = true
  · rw [if_pos h]
    unfold jsMapHas at h
    rcases List.any_eq_true.mp h with ⟨p, hp, hpk⟩
    exact List.mem_map.mpr ⟨p, hp, by simp [hpk]⟩
  · rw [if_neg h]
    exact List.mem_append_right _ (List.mem_singleton.mpr rfl)

theorem jsMapSet_mem_of_mem [BEq α] [LawfulBEq α] {m : List (α × β)} {p : α × β}
    (hp : p ∈ m) (k : α) (v : β) (hne : p.1 ≠ k) : p ∈ jsMapSet m k v := by
  unfold jsMapSet
  by_cases h : jsMapHas m k = true
  · rw [if_pos h]
    exact List.mem_map.mpr ⟨p, hp, by simp [beq_eq_false_iff_ne.mpr hne]⟩
  · rw [if_neg h]
    exact List.mem_append_left _ hp

theorem jsMapKeys_set (m : List (String × β)) (k : String) (v : β) :
    jsMapKeys (jsMapSet m k v)
      = if jsMapHas m k then jsMapKeys m else jsMapKeys m ++ [k] := by
  unfold jsMapSet
  by_cases h : jsMapHas m k = true
  · rw [if_pos h, if_pos h]
    unfold jsMapKeys
    rw [List.map_map]
    refine List.map_congr_left ?_
    intro p _
    by_cases hp : (p.1 == k) = true
    · simp only [Function.comp, hp, if_true]
      exact (beq_iff_eq.mp hp).symm
    · simp only [Function.comp, hp]
      simp [hp]
  · rw [if_neg h, if_neg h]
    unfold jsMapKeys
    simp

theorem jsMapHas_eq_contains (m : List (String × β)) (k : String) :
    jsMapHas m k = (jsMapKeys m).contains k := by
  unfold jsMapHas jsMapKeys
  induction m with
  | nil => rfl
  | cons p rest ih =>
    simp only [List.any_cons, List.map_cons, List.contains_cons] at ih ⊢
    rw [ih]
    have : (p.1 == k) = (k == p.1) := by
      by_cases h : p.1 = k
      · subst h; simp
      · rw [beq_eq_false_iff_ne.mpr h, beq_eq_false_iff_ne.mpr (Ne.symm h)]
    rw [this]

theorem jsMapKeys_filter_bool (m : List (String × β)) (f : (String × β) → Bool)
    (g : String → Bool) (hfg : ∀ p, f p = g p.1) :
    jsMapKeys (m.filter f) = (jsMapKeys m).filter g := by
  unfold jsMapKeys
  induction m with
  | nil => rfl
  | cons p rest ih =>
    rw [List.filter_cons, List.map_cons, List.filter_cons, hfg p]
    by_cases h : g p.1 = true
    · rw [h]
      simp only [if_true, List.map_cons, ih]
    · rw [Bool.not_eq_true] at h
      rw [h]
      simp only [Bool.false_eq_true, if_false, ih]

theorem aligned_touch {s : ServerState} {sid : String} {now : Nat}
    (ha : keysAligned s) (hh : jsMapHas s.transports sid = true) :
    keysAligned (touchSession s sid now) := by
  unfold keysAligned at ha
  unfold keysAligned touchSession
  simp only
  rw [jsMapKeys_set]
  have hh2 : jsMapHas s.sessionLastActivity sid = true := by
    rw [jsMapHas_eq_contains, ← ha, ← jsMapHas_eq_contains]
    exact hh
  rw [hh2, if_pos rfl]
  exact ha

theorem aligned_register {s : ServerState} {sid : String} {tr t : Nat}
    (ha : keysAligned s) : keysAligned (registerSession s sid tr t) := by
  unfold keysAligned at ha
  unfold keysAligned registerSession
  simp only
  rw [jsMapKeys_set, jsMapKeys_set]
  rw [jsMapHas_eq_contains, jsMapHas_eq_contains, ← ha]

theorem aligned_rollback {s : ServerState} {tr : Nat} (ha : keysAligned s) :
    keysAligned (rollbackTransport s tr) := by
  unfold keysAligned at ha
  unfold keysAligned rollbackTransport
  simp only
  generalize (List.filter (fun p => p.2 == tr) s.transports).map Prod.fst = vs
  rw [jsMapKeys_filter_bool _ _ (fun k => !(vs.contains k)) (fun p => rfl),
      jsMapKeys_filter_bool _ _ (fun k => !(vs.contains k)) (fun p => rfl), ha]

theorem aligned_close {s : ServerState} {sid : String} (ha : keysAligned s) :
    keysAligned (closeSession s sid) := by
  unfold keysAligned at ha
  unfold keysAligned closeSession jsMapDeleteKey
  simp only
  rw [jsMapKeys_filter_bool _ _ (fun k => !(k == sid)) (fun p => rfl),
      jsMapKeys_filter_bool _ _ (fun k => !(k == sid)) (fun p => rfl), ha]

theorem aligned_reap {s : ServerState} {now : Nat} (ha : keysAligned s) :
    keysAligned (reapTick s now) := by
  unfold keysAligned at ha
  unfold keysAligned reapTick
  simp only
  generalize (List.filter (fun p => decide (SESSION_TIMEOUT_MS < now - p.2))
    s.sessionLastActivity).map Prod.fst = vs
  rw [jsMapKeys_filter_bool _ _ (fun k => !(vs.contains k)) (fun p => rfl),
      jsMapKeys_filter_bool _ _ (fun k => !(vs.contains k)) (fun p => rfl), ha]

theorem aligned_initPath {s : ServerState} {init : InitOutcome} (ha : keysAligned s) :
    keysAligned (initPath s init).1 := by
  have ha1 : keysAligned { s with nextTransport := s.nextTransport + 1 } := ha
  unfold initPath
  cases init with
  | okInit sid t => exact aligned_register ha1
  | okNoInit => exact ha1
  | failInit sid t => exact aligned_rollback (aligned_register ha1)
  | failNoInit => exact aligned_rollback ha1

theorem sessionHit_has {sid : String} {sidOpt : Option String} {s : ServerState}
    (h : sessionHit sidOpt s = some sid) : jsMapHas s.transports sid = true := by
  cases sidOpt with
  | none => simp [sessionHit] at h
  | some sid0 =>
    simp only [sessionHit] at h
    by_cases hh : jsMapHas s.transports sid0 = true
    · rw [if_pos hh] at h
      cases Option.some.inj h
      exact hh
    · rw [if_neg hh] at h
      simp at h

theorem aligned_handleRequest {parse : List Nat → Bool} {r : HRequest} {now : Nat}
    {init : InitOutcome} {s : ServerState} (ha : keysAligned s) :
    keysAligned (handleRequest parse r now init s).1 := by
  unfold handleRequest
  cases hp : r.mcpPath with
  | false => exact ha
  | true =>
    simp only [hp, Bool.not_true, Bool.false_eq_true, if_false]
    cases hb : bodyOutcome parse r with
    | some resp => exact ha
    | none =>
      cases hs : sessionHit r.sessionId s with
      | some sid => exact aligned_touch ha (sessionHit_has hs)
      | none =>
        by_cases hm : (r.method == HMethod.post) = true
        · simp only [hm, if_true]
          exact aligned_initPath ha
        · rw [Bool.not_eq_true] at hm
          simp only [hm, Bool.false_eq_true, if_false]
          by_cases hg : (r.method == HMethod.get || r.method == HMethod.delete) = true
          · simp only [hg, if_true]; exact ha
          · rw [Bool.not_eq_true] at hg
            simp only [hg, Bool.false_eq_true, if_false]
            exact ha

theorem aligned_applyEvent {s : ServerState} (e : SEvent) (ha : keysAligned s) :
    keysAligned (applyEvent s e) := by
  cases e with
  | req r now init parseOk => exact aligned_handleRequest ha
  | close sid => exact aligned_close ha
  | reap now => exact aligned_reap ha

theorem aligned_applyEvents {s : ServerState} (es : List SEvent) (ha : keysAligned s) :
    keysAligned (applyEvents es s) := by
  induction es generalizing s with
  | nil => exact ha
  | cons e rest ih => exact ih (aligned_applyEvent e ha)

theorem totalLen_cons (c : List Nat) (rest : List (List Nat)) :
    totalLen (c :: rest) = c.length + totalLen rest := by
  unfold totalLen
  rw [List.map_cons, List.sum_cons]

theorem accumulateBody_eq (chunks : List (List Nat)) (total : Nat)
    (htot : total ≤ MAX_REQUEST_BODY_SIZE) :
    accumulateBody chunks total =
      if MAX_REQUEST_BODY_SIZE < total + totalLen chunks then none
      else some chunks.flatten := by
  induction chunks generalizing total with
  | nil =>
    have h : ¬ MAX_REQUEST_BODY_SIZE < total + totalLen [] := by
      unfold totalLen
      simp only [List.map_nil, List.sum_nil, Nat.add_zero]
      omega
    rw [if_neg h]
    rfl
  | cons c rest ih =>
    unfold accumulateBody
    by_cases h : MAX_REQUEST_BODY_SIZE < total + c.length
    · rw [if_pos h]
      have h2 : MAX_REQUEST_BODY_SIZE < total + totalLen (c :: rest) := by
        rw [totalLen_cons]; omega
      rw [if_pos h2]
    · rw [if_neg h, ih (total + c.length) (by omega)]
      by_cases h2 : MAX_REQUEST_BODY_SIZE < total + c.length + totalLen rest
      · rw [if_pos h2, if_pos (by rw [totalLen_cons]; omega)]
        rfl
      · rw [if_neg h2, if_neg (by rw [totalLen_cons]; omega)]
        rw [List.flatten_cons]
        rfl

theorem mapWithIndex_length (f : Nat → α → β) (n : Nat) (l : List α) :
    (mapWithIndex f n l).length = l.length := by
  induction l generalizing n with
  | nil => rfl
  | cons x xs ih =>
    unfold mapWithIndex
    rw [List.length_cons, List.length_cons, ih]

theorem mapWithIndex_getD (f : Nat → α → β) (n : Nat) (l : List α) (i : Nat)
    (d : β) (d0 : α) (hi : i < l.length) :
    (mapWithIndex f n l).getD i d = f (n + i) (l.getD i d0) := by
  induction l generalizing n i with
  | nil => simp at hi
  | cons x xs ih =>
    cases i with
    | zero =>
      unfold mapWithIndex
      rfl
    | succ j =>
      unfold mapWithIndex
      rw [List.getD_cons_succ, List.getD_cons_succ,
        ih (n + 1) j (by simpa using Nat.lt_of_succ_lt_succ (by simpa using hi))]
      have : n + 1 + j = n + (j + 1) := by omega
      rw [this]

theorem runConfigOp_spec (op : ConfigOp) (s : ClientCacheState) (now : Nat)
    (resp : Except String SearXNGConfigResponse) :
    (runConfigOp op s now resp).state = (fetchConfig s now resp).2.1 ∧
    (runConfigOp op s now resp).fetches = (fetchConfig s now resp).2.2 ∧
    ((runConfigOp op s now resp).ok = true ↔
      ∃ c, (fetchConfig s now resp).1 = Except.ok c) := by
  cases op with
  | engines =>
    unfold runConfigOp getEnginesCached
    rcases hf : fetchConfig s now resp with ⟨res, s1, n⟩
    cases res with
    | ok c => exact ⟨rfl, rfl, by simp⟩
    | error e => exact ⟨rfl, rfl, by simp⟩
  | categories =>
    unfold runConfigOp getCategoriesCached
    rcases hf : fetchConfig s now resp with ⟨res, s1, n⟩
    cases res with
    | ok c => exact ⟨rfl, rfl, by simp⟩
    | error e => exact ⟨rfl, rfl, by simp⟩

theorem fetchConfig_ok_cache {s : ClientCacheState} {now : Nat}
    {resp : Except String SearXNGConfigResponse} {c : SearXNGConfigResponse}
    (h : (fetchConfig s now resp).1 = Except.ok c) :
    (fetchConfig s now resp).2.1.configCache = some c := by
  obtain ⟨cache, time⟩ := s
  cases cache with
  | some c0 =>
    by_cases ht : now - time < CONFIG_CACHE_TTL_MS
    · simp only [fetchConfig, ht, if_true] at h ⊢
      obtain rfl : c0 = c := Except.ok.inj h
      rfl
    · simp only [fetchConfig, ht, if_false] at h ⊢
      cases resp with
      | ok cfg =>
        simp only at h ⊢
        obtain rfl : cfg = c := Except.ok.inj h
        rfl
      | error e => simp at h
  | none =>
    cases resp with
    | ok cfg =>
      simp only [fetchConfig] at h ⊢
      obtain rfl : cfg = c := Except.ok.inj h
      rfl
    | error e => simp [fetchConfig] at h

theorem fetchConfig_fresh_no_fetch {s : ClientCacheState} {now : Nat}
    {resp : Except String SearXNGConfigResponse} {c : SearXNGConfigResponse}
    (hc : s.configCache = some c)
    (ht : now - s.configCacheTime < CONFIG_CACHE_TTL_MS) :
    (fetchConfig s now resp).2.2 = 0 := by
  obtain ⟨cache, time⟩ := s
  simp only at hc ht
  subst hc
  simp only [fetchConfig, ht, if_true]

theorem fetchConfig_stale_fetches {s : ClientCacheState} {now : Nat}
    {resp : Except String SearXNGConfigResponse}
    (hstale : s.configCache = none ∨
      CONFIG_CACHE_TTL_MS ≤ now - s.configCacheTime) :
    (fetchConfig s now resp).2.2 = 1 ∧
    (∀ cfg, resp = Except.ok cfg →
      (fetchConfig s now resp).2.1.configCache = some cfg ∧
      (fetchConfig s now resp).2.1.configCacheTime = now) := by
  obtain ⟨cache, time⟩ := s
  simp only at hstale
  cases cache with
  | some c0 =>
    have ht : ¬ now - time < CONFIG_CACHE_TTL_MS := by
      rcases hstale with h | h
      · exact absurd h (by simp)
      · omega
    simp only [fetchConfig, ht, if_false]
    cases resp with
    | ok cfg =>
      refine ⟨rfl, ?_⟩
      intro cfg2 h2
      obtain rfl : cfg = cfg2 := Except.ok.inj h2
      exact ⟨rfl, rfl⟩
    | error e =>
      refine ⟨rfl, ?_⟩
      intro cfg2 h2
      exact absurd h2 (by simp)
  | none =>
    cases resp with
    | ok cfg =>
      refine ⟨rfl, ?_⟩
      intro cfg2 h2
      obtain rfl : cfg = cfg2 := Except.ok.inj h2
      exact ⟨rfl, rfl⟩
    | error e =>
      refine ⟨rfl, ?_⟩
      intro cfg2 h2
      exact absurd h2 (by simp)

theorem fetchConfig_le_one (s : ClientCacheState) (now : Nat)
    (resp : Except String SearXNGConfigResponse) :
    (fetchConfig s now resp).2.2 ≤ 1 := by
  obtain ⟨cache, time⟩ := s
  cases cache with
  | some c0 =>
    by_cases ht : now - time < CONFIG_CACHE_TTL_MS
    · simp [fetchConfig, ht]
    · simp only [fetchConfig, ht, if_false]
      cases resp <;> exact Nat.le_refl 1
  | none => cases resp <;> exact Nat.le_refl 1

theorem mem_victims {m : List (String × Nat)} {k : String} {tr : Nat}
    (hmem : (k, tr) ∈ m) :
    ((m.filter (fun p => p.2 == tr)).map Prod.fst).contains k = true := by
  have h1 : (k, tr) ∈ m.filter (fun p => p.2 == tr) :=
    List.mem_filter.mpr ⟨hmem, by simp⟩
  have h2 : k ∈ (m.filter (fun p => p.2 == tr)).map Prod.fst :=
    List.mem_map_of_mem _ h1
  exact List.elem_iff.mpr h2

/-! # The claims -/

/-- Claim C4 (counterexample): the plugin module's search-result formatter does
not return the literal "No results found." on the empty result sequence — it
returns the XML envelope with nothing between the tags. -/
theorem c4_counterexample :
    formatSearchResultsX [] = "<results>\n\n</results>" ∧
    formatSearchResultsX [] ≠ "No results found." := by
  constructor
  · rfl
  · decide

/-- Claim C4 (amended): formatting the empty inputs yields the exact literals
"No results found." / "No engines available." for the `src/index.ts`
formatters and for both engine formatters; the plugin module's search-result
formatter instead yields the empty XML envelope `<results>\n\n</results>`. -/
theorem c4_amended :
    formatSearchResults [] = "No results found." ∧
    formatEngines [] = "No engines available." ∧
    formatEnginesX [] = "No engines available." ∧
    formatSearchResultsX [] = "<results>\n\n</results>" :=
  ⟨rfl, rfl, rfl, rfl⟩

/-- Claim C7 (counterexample): in the stateless variant, invoking the
`get_engines` callback with `engineUrl` missing does not produce an `isError`
result envelope — the unguarded `new SearXNGClient(args.engineUrl)` throws a
`TypeError` out of the callback. -/
theorem c7_counterexample :
    getEnginesStatelessCallback none (Except.ok [])
      = Except.error "TypeError: Cannot read properties of undefined (reading 'replace')" ∧
    (getEnginesStatelessCallback none (Except.ok [])).isOk = false :=
  ⟨rfl, rfl⟩

/-- Claim C7 (amended): both stateless schemas require `engineUrl`; the
stateless `search` callback answers a missing (or empty, JS-falsy) `engineUrl`
with a handler-level `isError` envelope, but the stateless `get_engines`
callback has no such guard and throws out of the handler instead of returning
an envelope. -/
theorem c7_amended :
    (⟨"engineUrl", true⟩ : SchemaField) ∈ searchStatelessSchema ∧
    (⟨"engineUrl", true⟩ : SchemaField) ∈ getEnginesStatelessSchema ∧
    (createErrorResponse "engineUrl is required" "initializing SearXNG client").isError
      = true ∧
    (∀ outcome, searchStatelessCallback none outcome
      = Except.ok (createErrorResponse "engineUrl is required" "initializing SearXNG client")) ∧
    (∀ outcome, searchStatelessCallback (some "") outcome
      = Except.ok (createErrorResponse "engineUrl is required" "initializing SearXNG client")) ∧
    (∀ outcome, getEnginesStatelessCallback none outcome
      = Except.error "TypeError: Cannot read properties of undefined (reading 'replace')") := by
  refine ⟨?_, ?_, rfl, fun _ => rfl, fun _ => rfl, fun _ => rfl⟩
  · decide
  · decide

/-- Claim C10: starting from the empty registry, after any sequence of
registry-mutating events (requests with arbitrary establishment/parse
outcomes, session-close callbacks, reaper ticks) the `transports` map and the
`sessionLastActivity` map hold exactly the same session ids — every mutation
inserts or deletes in both maps together. -/
theorem c10_registry_aligned (es : List SEvent) :
    keysAligned (applyEvents es initialState) :=
  aligned_applyEvents es rfl

/-- Claim C6: on the `/mcp` POST path, a body whose accumulated size exceeds
the 1 MiB limit is answered `413` with the registry untouched, for every
possible parse function (the payload is never parsed); a body within the limit
that fails to parse is answered `400`. -/
theorem c6_body_limit (r : HRequest) (now : Nat) (init : InitOutcome)
    (s : ServerState) (hpath : r.mcpPath = true) (hm : r.method = HMethod.post) :
    (MAX_REQUEST_BODY_SIZE < totalLen r.chunks →
      ∀ parse, handleRequest parse r now init s = (s, HResponse.tooLarge)) ∧
    (totalLen r.chunks ≤ MAX_REQUEST_BODY_SIZE →
      ∀ parse, parse r.chunks.flatten = false →
        handleRequest parse r now init s = (s, HResponse.badJson)) := by
  constructor
  · intro hbig parse
    have hacc : accumulateBody r.chunks 0 = none := by
      rw [accumulateBody_eq _ 0 (Nat.zero_le _), if_pos (by omega)]
    have hb : bodyOutcome parse r = some HResponse.tooLarge := by
      unfold bodyOutcome
      rw [hm]
      simp only [beq_self_eq_true, if_true]
      rw [hacc]
    unfold handleRequest
    rw [hpath]
    simp only [Bool.not_true, Bool.false_eq_true, if_false]
    rw [hb]
  · intro hsmall parse hparse
    have hacc : accumulateBody r.chunks 0 = some r.chunks.flatten := by
      rw [accumulateBody_eq _ 0 (Nat.zero_le _), if_neg (by omega)]
    have hb : bodyOutcome parse r = some HResponse.badJson := by
      unfold bodyOutcome
      rw [hm]
      simp only [beq_self_eq_true, if_true]
      rw [hacc]
      simp only [hparse, Bool.false_eq_true, if_false]
    unfold handleRequest
    rw [hpath]
    simp only [Bool.not_true, Bool.false_eq_true, if_false]
    rw [hb]

/-- Claim C6, witness: a single 1048577-byte chunk is rejected `413` whatever
the parse function would say; a one-byte body with a failing parse yields `400`. -/
theorem c6_witness :
    MAX_REQUEST_BODY_SIZE < totalLen [List.replicate 1048577 0] ∧
    (∀ parse, handleRequest parse ⟨true, HMethod.post, none, [List.replicate 1048577 0]⟩
        0 InitOutcome.okNoInit initialState = (initialState, HResponse.tooLarge)) ∧
    totalLen [[65]] ≤ MAX_REQUEST_BODY_SIZE ∧
    handleRequest (fun _ => false) ⟨true, HMethod.post, none, [[65]]⟩
        0 InitOutcome.okNoInit initialState = (initialState, HResponse.badJson) := by
  have hbig : MAX_REQUEST_BODY_SIZE < totalLen [List.replicate 1048577 0] := by
    unfold totalLen MAX_REQUEST_BODY_SIZE
    simp only [List.map_cons, List.map_nil, List.length_replicate, List.sum_cons,
      List.sum_nil]
    omega
  refine ⟨hbig, ?_, by decide, ?_⟩
  · exact fun parse =>
      (c6_body_limit ⟨true, HMethod.post, none, [List.replicate 1048577 0]⟩
        0 InitOutcome.okNoInit initialState rfl rfl).1 hbig parse
  · exact (c6_body_limit ⟨true, HMethod.post, none, [[65]]⟩
      0 InitOutcome.okNoInit initialState rfl rfl).2 (by decide) (fun _ => false) rfl

/-- Claim C8: search-result formatting preserves the backend order verbatim —
the block list has the same length as the result list and its `i`-th block is
the rendering of the `i`-th result labelled `i + 1`, in both the
`src/index.ts` formatter and the plugin module's XML formatter; for a
non-empty result list the `src/index.ts` output is the header followed by the
blocks in order. -/
theorem c8_order_preserved (results : List SearXNGSearchResult) (i : Nat)
    (h : i < results.length) :
    (formatBlocks results).length = results.length ∧
    (formatBlocks results).getD i ""
      = renderSearchResult (i + 1) (results.getD i ⟨"", "", none, none, none⟩) ∧
    (formatBlocksX results).getD i ""
      = renderSearchResultX (i + 1) (results.getD i ⟨"", "", none, none, none⟩) ∧
    (results.length ≠ 0 →
      formatSearchResults results
        = "Found " ++ toString results.length ++ " results:\n\n"
            ++ String.intercalate "\n\n" (formatBlocks results)) := by
  refine ⟨mapWithIndex_length _ 0 results, ?_, ?_, ?_⟩
  · unfold formatBlocks
    rw [mapWithIndex_getD _ 0 results i "" ⟨"", "", none, none, none⟩ h,
      Nat.zero_add]
  · unfold formatBlocksX
    rw [mapWithIndex_getD _ 0 results i "" ⟨"", "", none, none, none⟩ h,
      Nat.zero_add]
  · intro hne
    unfold formatSearchResults
    rw [if_neg (fun hcon => hne (by simpa using hcon))]

/-- Claim C8, witness: on a concrete two-result list, block 1 is the rendering
of the second result labelled 2. -/
theorem c8_witness :
    1 < ([⟨"A", "http://x", none, some "e1", none⟩,
          ⟨"B", "u", some "c", none, none⟩] : List SearXNGSearchResult).length ∧
    (formatBlocks [⟨"A", "http://x", none, some "e1", none⟩,
          ⟨"B", "u", some "c", none, none⟩]).getD 1 ""
      = renderSearchResult 2
          (([⟨"A", "http://x", none, some "e1", none⟩,
             ⟨"B", "u", some "c", none, none⟩] :
              List SearXNGSearchResult).getD 1 ⟨"", "", none, none, none⟩) :=
  ⟨by decide,
   (c8_order_preserved
      [⟨"A", "http://x", none, some "e1", none⟩, ⟨"B", "u", some "c", none, none⟩]
      1 (by decide)).2.1⟩

/-- Claim C1: when transport establishment on a session-initiating POST throws
(after the `onsessioninitialized` callback has registered the new transport
under the generated id), the dispatcher answers `500` and removes the
just-created binding from the registry by value: afterwards every session id
associated with the failed transport — the id the callback registered, and any
id that happened to map to that transport object — looks up to `none` in both
maps. -/
theorem c1_rollback_on_failure (parse : List Nat → Bool) (r : HRequest)
    (now : Nat) (sid : String) (t : Nat) (s : ServerState)
    (hpath : r.mcpPath = true) (hm : r.method = HMethod.post)
    (hbody : bodyOutcome parse r = none)
    (hsess : sessionHit r.sessionId s = none) :
    (handleRequest parse r now (InitOutcome.failInit sid t) s).2
      = HResponse.initFailed ∧
    ∀ k, (k = sid ∨ jsMapGet s.transports k = some s.nextTransport) →
      jsMapGet (handleRequest parse r now (InitOutcome.failInit sid t) s).1.transports k
        = none ∧
      jsMapGet (handleRequest parse r now (InitOutcome.failInit sid t) s).1.sessionLastActivity k
        = none := by
  have hred : handleRequest parse r now (InitOutcome.failInit sid t) s
      = (rollbackTransport
          (registerSession { s with nextTransport := s.nextTransport + 1 }
            sid s.nextTransport t) s.nextTransport,
         HResponse.initFailed) := by
    unfold handleRequest
    rw [hpath]
    simp only [Bool.not_true, Bool.false_eq_true, if_false]
    rw [hbody]
    simp only
    rw [hsess]
    simp only [hm, beq_self_eq_true, if_true]
    rfl
  rw [hred]
  refine ⟨rfl, ?_⟩
  intro k hk
  have hmem : (k, s.nextTransport)
      ∈ (registerSession { s with nextTransport := s.nextTransport + 1 }
          sid s.nextTransport t).transports := by
    rcases hk with rfl | hget
    · exact jsMapSet_self_mem _ k s.nextTransport
    · by_cases hks : k = sid
      · subst hks
        exact jsMapSet_self_mem _ k s.nextTransport
      · exact jsMapSet_mem_of_mem (jsMapGet_mem hget) sid s.nextTransport hks
  have hvic := mem_victims hmem
  unfold rollbackTransport
  simp only
  exact ⟨jsMapGet_filter_not_contains hvic, jsMapGet_filter_not_contains hvic⟩

/-- Claim C1, witness: a failing establishment on the empty registry answers
`500` and leaves the generated session id unresolvable. -/
theorem c1_witness :
    (handleRequest (fun _ => true) ⟨true, HMethod.post, none, []⟩ 0
        (InitOutcome.failInit "s1" 0) initialState).2 = HResponse.initFailed ∧
    jsMapGet (handleRequest (fun _ => true) ⟨true, HMethod.post, none, []⟩ 0
        (InitOutcome.failInit "s1" 0) initialState).1.transports "s1" = none ∧
    jsMapGet (handleRequest (fun _ => true) ⟨true, HMethod.post, none, []⟩ 0
        (InitOutcome.failInit "s1" 0) initialState).1.sessionLastActivity "s1" = none := by
  have h := c1_rollback_on_failure (fun _ => true) ⟨true, HMethod.post, none, []⟩
    0 "s1" 0 initialState rfl rfl rfl rfl
  exact ⟨h.1, (h.2 "s1" (Or.inl rfl)).1, (h.2 "s1" (Or.inl rfl)).2⟩

theorem bodyOutcome_cases {parse : List Nat → Bool} {r : HRequest} {resp : HResponse}
    (h : bodyOutcome parse r = some resp) :
    resp = HResponse.tooLarge ∨ resp = HResponse.badJson := by
  unfold bodyOutcome at h
  by_cases hm : (r.method == HMethod.post) = true
  · rw [hm] at h
    simp only [if_true] at h
    cases hacc : accumulateBody r.chunks 0 with
    | none =>
      rw [hacc] at h
      exact Or.inl (Option.some.inj h).symm
    | some bytes =>
      rw [hacc] at h
      dsimp only at h
      by_cases hp : parse bytes = true
      · rw [if_pos hp] at h
        simp at h
      · rw [if_neg hp] at h
        exact Or.inr (Option.some.inj h).symm
  · rw [Bool.not_eq_true] at hm
    rw [hm] at h
    simp at h

theorem initPath_ne_sessionRequired (s : ServerState) (init : InitOutcome) :
    (initPath s init).2 ≠ HResponse.sessionRequired := by
  cases init <;> simp [initPath]

/-- Claim C9: a POST whose `mcp-session-id` names no registered session is
treated exactly like a session-initiating POST without the header (a new
transport is created and establishment attempted, never a session-not-found
answer), and the `400` "Session ID required" response occurs precisely for GET
and DELETE without a registered session. -/
theorem c9_stale_id_reinitializes (parse : List Nat → Bool) (r : HRequest)
    (now : Nat) (init : InitOutcome) (s : ServerState)
    (hpath : r.mcpPath = true) :
    (∀ sid, r.sessionId = some sid → jsMapHas s.transports sid = false →
      handleRequest parse r now init s
        = handleRequest parse { r with sessionId := none } now init s) ∧
    (r.method = HMethod.post → bodyOutcome parse r = none →
      sessionHit r.sessionId s = none →
      handleRequest parse r now init s = initPath s init) ∧
    ((handleRequest parse r now init s).2 = HResponse.sessionRequired ↔
      ((r.method = HMethod.get ∨ r.method = HMethod.delete) ∧
        sessionHit r.sessionId s = none)) := by
  refine ⟨?_, ?_, ?_⟩
  · intro sid hsid hhas
    obtain ⟨mp, meth, sid0, ch⟩ := r
    simp only at hsid
    subst hsid
    have hs : sessionHit (some sid) s = none := by
      simp [sessionHit, hhas]
    unfold handleRequest
    rw [hs]
    rfl
  · intro hm hb hs
    unfold handleRequest
    rw [hpath]
    simp only [Bool.not_true, Bool.false_eq_true, if_false]
    rw [hb]
    simp only
    rw [hs]
    simp only [hm, beq_self_eq_true, if_true]
  · constructor
    · intro hresp
      unfold handleRequest at hresp
      rw [hpath] at hresp
      simp only [Bool.not_true, Bool.false_eq_true, if_false] at hresp
      cases hb : bodyOutcome parse r with
      | some resp =>
        rw [hb] at hresp
        simp only at hresp
        rcases bodyOutcome_cases hb with h | h <;> rw [h] at hresp <;> simp at hresp
      | none =>
        rw [hb] at hresp
        simp only at hresp
        cases hs : sessionHit r.sessionId s with
        | some sid =>
          rw [hs] at hresp
          simp at hresp
        | none =>
          rw [hs] at hresp
          simp only at hresp
          by_cases hm : (r.method == HMethod.post) = true
          · rw [hm] at hresp
            simp only [if_true] at hresp
            exact absurd hresp (initPath_ne_sessionRequired s init)
          · rw [Bool.not_eq_true] at hm
            rw [hm] at hresp
            simp only [Bool.false_eq_true, if_false] at hresp
            by_cases hg : (r.method == HMethod.get || r.method == HMethod.delete) = true
            · refine ⟨?_, rfl⟩
              rcases Bool.or_eq_true_iff.mp hg with h | h
              · exact Or.inl (beq_iff_eq.mp h)
              · exact Or.inr (beq_iff_eq.mp h)
            · rw [Bool.not_eq_true] at hg
              rw [hg] at hresp
              simp at hresp
    · rintro ⟨hgd, hs⟩
      have hm : r.method ≠ HMethod.post := by
        rcases hgd with h | h <;> rw [h] <;> intro hcon <;> cases hcon
      have hb : bodyOutcome parse r = none := by
        unfold bodyOutcome
        rw [beq_eq_false_iff_ne.mpr hm]
        simp
      have hg : (r.method == HMethod.get || r.method == HMethod.delete) = true := by
        rcases hgd with h | h <;> rw [h] <;> simp
      unfold handleRequest
      rw [hpath]
      simp only [Bool.not_true, Bool.false_eq_true, if_false]
      rw [hb]
      simp only
      rw [hs]
      simp only [beq_eq_false_iff_ne.mpr hm, Bool.false_eq_true, if_false]
      rw [hg]
      rfl

/-- Claim C9, witness: on the empty registry, a POST bearing the unregistered
id "stale" behaves exactly like a header-less POST, and a GET bearing that id
is answered "Session ID required". -/
theorem c9_witness :
    ((⟨true, HMethod.post, some "stale", []⟩ : HRequest).sessionId = some "stale") ∧
    jsMapHas initialState.transports "stale" = false ∧
    handleRequest (fun _ => true) ⟨true, HMethod.post, some "stale", []⟩ 0
        (InitOutcome.okInit "fresh" 0) initialState
      = handleRequest (fun _ => true) ⟨true, HMethod.post, none, []⟩ 0
        (InitOutcome.okInit "fresh" 0) initialState ∧
    (handleRequest (fun _ => true) ⟨true, HMethod.get, some "stale", []⟩ 0
        InitOutcome.okNoInit initialState).2 = HResponse.sessionRequired := by
  refine ⟨rfl, rfl, ?_, ?_⟩
  · exact (c9_stale_id_reinitializes (fun _ => true)
      ⟨true, HMethod.post, some "stale", []⟩ 0 (InitOutcome.okInit "fresh" 0)
      initialState rfl).1 "stale" rfl rfl
  · exact (c9_stale_id_reinitializes (fun _ => true)
      ⟨true, HMethod.get, some "stale", []⟩ 0 InitOutcome.okNoInit
      initialState rfl).2.2.mpr ⟨Or.inl rfl, rfl⟩

/-- Claim C2 (amended): on the caching client of
`packages/searxng-mcp/src/searxng.ts`, for any pair of
`getEngines`/`getCategories` calls, if the first call succeeds and the second
occurs within the 5-minute TTL of the last successful fetch, the second call
issues no backend fetch and the pair issues at most one in total; a call
observing an absent or expired cache issues exactly one fetch and, on success,
replaces the cached slot (config and timestamp) before returning.  The legacy
client of `src/searxng.ts` has no configuration cache and issues one fetch on
every call (see the counterexample). -/
theorem c2_cache_ttl (op1 op2 : ConfigOp) (s0 : ClientCacheState) (t1 t2 : Nat)
    (r1 r2 : Except String SearXNGConfigResponse) :
    ((runConfigOp op1 s0 t1 r1).ok = true →
      t2 - (runConfigOp op1 s0 t1 r1).state.configCacheTime < CONFIG_CACHE_TTL_MS →
      (runConfigOp op2 (runConfigOp op1 s0 t1 r1).state t2 r2).fetches = 0 ∧
      (runConfigOp op1 s0 t1 r1).fetches
        + (runConfigOp op2 (runConfigOp op1 s0 t1 r1).state t2 r2).fetches ≤ 1) ∧
    ((s0.configCache = none ∨ CONFIG_CACHE_TTL_MS ≤ t1 - s0.configCacheTime) →
      (runConfigOp op1 s0 t1 r1).fetches = 1 ∧
      ∀ cfg, r1 = Except.ok cfg →
        (runConfigOp op1 s0 t1 r1).state.configCache = some cfg ∧
        (runConfigOp op1 s0 t1 r1).state.configCacheTime = t1) := by
  obtain ⟨hst1, hfe1, hok1⟩ := runConfigOp_spec op1 s0 t1 r1
  constructor
  · intro hok httl
    obtain ⟨c, hc⟩ := hok1.mp hok
    have hcache : (runConfigOp op1 s0 t1 r1).state.configCache = some c := by
      rw [hst1]
      exact fetchConfig_ok_cache hc
    obtain ⟨hst2, hfe2, _⟩ :=
      runConfigOp_spec op2 (runConfigOp op1 s0 t1 r1).state t2 r2
    have h0 : (runConfigOp op2 (runConfigOp op1 s0 t1 r1).state t2 r2).fetches = 0 := by
      rw [hfe2]
      exact fetchConfig_fresh_no_fetch hcache httl
    refine ⟨h0, ?_⟩
    rw [h0, hfe1]
    have := fetchConfig_le_one s0 t1 r1
    omega
  · intro hstale
    obtain ⟨hf1, hrepl⟩ := @fetchConfig_stale_fetches s0 t1 r1 hstale
    refine ⟨by rw [hfe1]; exact hf1, ?_⟩
    intro cfg hcfg
    obtain ⟨ha, hb⟩ := hrepl cfg hcfg
    exact ⟨by rw [hst1]; exact ha, by rw [hst1]; exact hb⟩

/-- Claim C2, witness: from an empty cache at `t = 0`, a successful
`getEngines` fetches once and fills the slot; a `getCategories` one second
later hits the cache, so the pair issues one fetch in total. -/
theorem c2_witness :
    ((runConfigOp ConfigOp.engines ⟨none, 0⟩ 0 (Except.ok ⟨some [], some []⟩)).ok
      = true) ∧
    (runConfigOp ConfigOp.engines ⟨none, 0⟩ 0 (Except.ok ⟨some [], some []⟩)).fetches
      = 1 ∧
    (runConfigOp ConfigOp.categories
        (runConfigOp ConfigOp.engines ⟨none, 0⟩ 0 (Except.ok ⟨some [], some []⟩)).state
        1000 (Except.ok ⟨some [], some []⟩)).fetches = 0 := by
  have h := c2_cache_ttl ConfigOp.engines ConfigOp.categories ⟨none, 0⟩ 0 1000
    (Except.ok ⟨some [], some []⟩) (Except.ok ⟨some [], some []⟩)
  have h2 := (h.2 (Or.inl rfl)).1
  have h1 := (h.1 (by decide) (by decide)).1
  exact ⟨by decide, h2, h1⟩

/-- Claim C2 (counterexample): the legacy client's `getEngines`
(`src/searxng.ts`), which the claim also covers, has no cache: two calls on
the same client — however close together — issue two backend fetches, not at
most one. -/
theorem c2_counterexample :
    (getEnginesLegacy (Except.ok ⟨some [], some []⟩)).2
      + (getEnginesLegacy (Except.ok ⟨some [], some []⟩)).2 = 2 ∧
    ¬ ((getEnginesLegacy (Except.ok ⟨some [], some []⟩)).2
      + (getEnginesLegacy (Except.ok ⟨some [], some []⟩)).2 ≤ 1) := by
  exact ⟨rfl, by decide⟩

theorem hasParam_append (a b : List (String × String)) (k : String) :
    hasParam (a ++ b) k = (hasParam a k || hasParam b k) := by
  unfold hasParam
  induction a with
  | nil => simp
  | cons e rest ih =>
    rw [List.cons_append, List.map_cons, List.contains_cons, List.map_cons,
      List.contains_cons, ih, Bool.or_assoc]

theorem hasParam_keyOnly {seg : List (String × String)} {K : String} (k : String)
    (hseg : ∀ e ∈ seg, e.1 = K) (hk : k ≠ K) : hasParam seg k = false := by
  unfold hasParam
  induction seg with
  | nil => rfl
  | cons e rest ih =>
    rw [List.map_cons, List.contains_cons]
    have h1 : e.1 = K := hseg e (List.mem_cons_self e rest)
    rw [h1, beq_eq_false_iff_ne.mpr hk,
      ih (fun e2 he2 => hseg e2 (List.mem_cons_of_mem e he2))]
    rfl

theorem segKeys_catParam (p : SearXNGSearchParams) :
    ∀ e ∈ catParam p, e.1 = "categories" := by
  unfold catParam
  cases p.categories with
  | none => intro e he; simp at he
  | some l =>
    dsimp only
    by_cases hl : 0 < l.length
    · rw [if_pos hl]
      intro e he
      rw [List.mem_singleton.mp he]
    · rw [if_neg hl]
      intro e he
      simp at he

theorem segKeys_engParam (p : SearXNGSearchParams) :
    ∀ e ∈ engParam p, e.1 = "engines" := by
  unfold engParam
  cases p.engines with
  | none => intro e he; simp at he
  | some l =>
    dsimp only
    by_cases hl : 0 < l.length
    · rw [if_pos hl]
      intro e he
      rw [List.mem_singleton.mp he]
    · rw [if_neg hl]
      intro e he
      simp at he

theorem segKeys_langParam (p : SearXNGSearchParams) :
    ∀ e ∈ langParam p, e.1 = "language" := by
  unfold langParam
  cases p.language with
  | none => intro e he; simp at he
  | some s =>
    dsimp only
    by_cases hs : (s == "") = true
    · rw [if_pos hs]
      intro e he
      simp at he
    · rw [if_neg hs]
      intro e he
      rw [List.mem_singleton.mp he]

theorem segKeys_pageParam (p : SearXNGSearchParams) :
    ∀ e ∈ pageParam p, e.1 = "pageno" := by
  unfold pageParam
  cases p.pageno with
  | none => intro e he; simp at he
  | some n =>
    dsimp only
    by_cases hn : (n == 0) = true
    · rw [if_pos hn]
      intro e he
      simp at he
    · rw [if_neg hn]
      intro e he
      rw [List.mem_singleton.mp he]

theorem segKeys_timeParam (p : SearXNGSearchParams) :
    ∀ e ∈ timeParam p, e.1 = "time_range" := by
  unfold timeParam
  cases p.time_range with
  | none => intro e he; simp at he
  | some tr =>
    dsimp only
    intro e he
    rw [List.mem_singleton.mp he]

theorem segKeys_safeParam (p : SearXNGSearchParams) :
    ∀ e ∈ safeParam p, e.1 = "safesearch" := by
  unfold safeParam
  cases p.safesearch with
  | none => intro e he; simp at he
  | some k =>
    dsimp only
    intro e he
    rw [List.mem_singleton.mp he]

theorem hasParam_catParam (p : SearXNGSearchParams) :
    (hasParam (catParam p) "categories" = true ↔
      ∃ l, p.categories = some l ∧ l ≠ []) := by
  unfold catParam
  cases hc : p.categories with
  | none => simp [hasParam]
  | some l =>
    dsimp only
    by_cases hl : 0 < l.length
    · rw [if_pos hl]
      exact ⟨fun _ => ⟨l, rfl, List.length_pos.mp hl⟩, fun _ => rfl⟩
    · rw [if_neg hl]
      constructor
      · intro hcon
        exact absurd hcon (by simp [hasParam])
      · rintro ⟨l2, hl2, hne⟩
        obtain rfl : l = l2 := Option.some.inj hl2
        exact absurd (List.length_pos.mpr hne) hl

theorem hasParam_engParam (p : SearXNGSearchParams) :
    (hasParam (engParam p) "engines" = true ↔
      ∃ l, p.engines = some l ∧ l ≠ []) := by
  unfold engParam
  cases hc : p.engines with
  | none => simp [hasParam]
  | some l =>
    dsimp only
    by_cases hl : 0 < l.length
    · rw [if_pos hl]
      exact ⟨fun _ => ⟨l, rfl, List.length_pos.mp hl⟩, fun _ => rfl⟩
    · rw [if_neg hl]
      constructor
      · intro hcon
        exact absurd hcon (by simp [hasParam])
      · rintro ⟨l2, hl2, hne⟩
        obtain rfl : l = l2 := Option.some.inj hl2
        exact absurd (List.length_pos.mpr hne) hl

theorem hasParam_langParam (p : SearXNGSearchParams) :
    (hasParam (langParam p) "language" = true ↔
      ∃ s, p.language = some s ∧ s ≠ "") := by
  unfold langParam
  cases hc : p.language with
  | none => simp [hasParam]
  | some s =>
    dsimp only
    by_cases hs : (s == "") = true
    · rw [if_pos hs]
      constructor
      · intro hcon
        exact absurd hcon (by simp [hasParam])
      · rintro ⟨s2, h2, hne⟩
        obtain rfl : s = s2 := Option.some.inj h2
        exact absurd (beq_iff_eq.mp hs) hne
    · rw [if_neg hs]
      refine ⟨fun _ => ⟨s, rfl, ?_⟩, fun _ => rfl⟩
      intro hcon
      exact hs (by rw [hcon]; rfl)

theorem hasParam_pageParam (p : SearXNGSearchParams)
    (hpage : ∀ n, p.pageno = some n → 0 < n) :
    (hasParam (pageParam p) "pageno" = true ↔ p.pageno.isSome = true) := by
  unfold pageParam
  cases hc : p.pageno with
  | none => simp [hasParam]
  | some n =>
    dsimp only
    have hn : 0 < n := hpage n hc
    have hne : (n == 0) = false := by
      rw [beq_eq_false_iff_ne]
      omega
    rw [hne]
    simp only [Bool.false_eq_true, if_false]
    exact ⟨fun _ => rfl, fun _ => rfl⟩

theorem hasParam_timeParam (p : SearXNGSearchParams) :
    (hasParam (timeParam p) "time_range" = true ↔ p.time_range.isSome = true) := by
  unfold timeParam
  cases hc : p.time_range with
  | none => simp [hasParam]
  | some tr => exact ⟨fun _ => rfl, fun _ => rfl⟩

theorem hasParam_safeParam (p : SearXNGSearchParams) :
    (hasParam (safeParam p) "safesearch" = true ↔ p.safesearch.isSome = true) := by
  unfold safeParam
  cases hc : p.safesearch with
  | none => simp [hasParam]
  | some k => exact ⟨fun _ => rfl, fun _ => rfl⟩

/-- Claim C3: for every valid search argument set (page numbers, when supplied,
are positive), the query string built by `SearXNGClient.search` contains
`q` (bound to the query) and `format=json`, and contains each optional
parameter exactly when it was supplied and non-empty — where, per the source's
truthiness checks, a supplied empty list or empty language string counts as
absent, and supplied `time_range`/`safesearch` (including `safesearch=0`) are
always included. -/
theorem c3_search_query (p : SearXNGSearchParams)
    (hpage : ∀ n, p.pageno = some n → 0 < n) :
    ("q", p.query) ∈ searchQueryParams p ∧
    ("format", "json") ∈ searchQueryParams p ∧
    (hasParam (searchQueryParams p) "categories" = true ↔
      ∃ l, p.categories = some l ∧ l ≠ []) ∧
    (hasParam (searchQueryParams p) "engines" = true ↔
      ∃ l, p.engines = some l ∧ l ≠ []) ∧
    (hasParam (searchQueryParams p) "language" = true ↔
      ∃ s, p.language = some s ∧ s ≠ "") ∧
    (hasParam (searchQueryParams p) "pageno" = true ↔ p.pageno.isSome = true) ∧
    (hasParam (searchQueryParams p) "time_range" = true ↔
      p.time_range.isSome = true) ∧
    (hasParam (searchQueryParams p) "safesearch" = true ↔
      p.safesearch.isSome = true) := by
  refine ⟨?_, ?_, ?_, ?_, ?_, ?_, ?_, ?_⟩
  · unfold searchQueryParams
    exact List.mem_append_left _ (List.mem_append_left _ (List.mem_append_left _
      (List.mem_append_left _ (List.mem_append_left _ (List.mem_append_left _
        (List.mem_cons_self _ _))))))
  · unfold searchQueryParams
    exact List.mem_append_left _ (List.mem_append_left _ (List.mem_append_left _
      (List.mem_append_left _ (List.mem_append_left _ (List.mem_append_left _
        (List.mem_cons_of_mem _ (List.mem_cons_self _ _)))))))
  · unfold searchQueryParams
    rw [hasParam_append, hasParam_append, hasParam_append, hasParam_append,
      hasParam_append, hasParam_append]
    rw [show hasParam [("q", p.query), ("format", "json")] "categories" = false from rfl,
      hasParam_keyOnly "categories" (segKeys_engParam p) (by decide),
      hasParam_keyOnly "categories" (segKeys_langParam p) (by decide),
      hasParam_keyOnly "categories" (segKeys_pageParam p) (by decide),
      hasParam_keyOnly "categories" (segKeys_timeParam p) (by decide),
      hasParam_keyOnly "categories" (segKeys_safeParam p) (by decide)]
    simp only [Bool.false_or, Bool.or_false]
    exact hasParam_catParam p
  · unfold searchQueryParams
    rw [hasParam_append, hasParam_append, hasParam_append, hasParam_append,
      hasParam_append, hasParam_append]
    rw [show hasParam [("q", p.query), ("format", "json")] "engines" = false from rfl,
      hasParam_keyOnly "engines" (segKeys_catParam p) (by decide),
      hasParam_keyOnly "engines" (segKeys_langParam p) (by decide),
      hasParam_keyOnly "engines" (segKeys_pageParam p) (by decide),
      hasParam_keyOnly "engines" (segKeys_timeParam p) (by decide),
      hasParam_keyOnly "engines" (segKeys_safeParam p) (by decide)]
    simp only [Bool.false_or, Bool.or_false]
    exact hasParam_engParam p
  · unfold searchQueryParams
    rw [hasParam_append, hasParam_append, hasParam_append, hasParam_append,
      hasParam_append, hasParam_append]
    rw [show hasParam [("q", p.query), ("format", "json")] "language" = false from rfl,
      hasParam_keyOnly "language" (segKeys_catParam p) (by decide),
      hasParam_keyOnly "language" (segKeys_engParam p) (by decide),
      hasParam_keyOnly "language" (segKeys_pageParam p) (by decide),
      hasParam_keyOnly "language" (segKeys_timeParam p) (by decide),
      hasParam_keyOnly "language" (segKeys_safeParam p) (by decide)]
    simp only [Bool.false_or, Bool.or_false]
    exact hasParam_langParam p
  · unfold searchQueryParams
    rw [hasParam_append, hasParam_append, hasParam_append, hasParam_append,
      hasParam_append, hasParam_append]
    rw [show hasParam [("q", p.query), ("format", "json")] "pageno" = false from rfl,
      hasParam_keyOnly "pageno" (segKeys_catParam p) (by decide),
      hasParam_keyOnly "pageno" (segKeys_engParam p) (by decide),
      hasParam_keyOnly "pageno" (segKeys_langParam p) (by decide),
      hasParam_keyOnly "pageno" (segKeys_timeParam p) (by decide),
      hasParam_keyOnly "pageno" (segKeys_safeParam p) (by decide)]
    simp only [Bool.false_or, Bool.or_false]
    exact hasParam_pageParam p hpage
  · unfold searchQueryParams
    rw [hasParam_append, hasParam_append, hasParam_append, hasParam_append,
      hasParam_append, hasParam_append]
    rw [show hasParam [("q", p.query), ("format", "json")] "time_range" = false from rfl,
      hasParam_keyOnly "time_range" (segKeys_catParam p) (by decide),
      hasParam_keyOnly "time_range" (segKeys_engParam p) (by decide),
      hasParam_keyOnly "time_range" (segKeys_langParam p) (by decide),
      hasParam_keyOnly "time_range" (segKeys_pageParam p) (by decide),
      hasParam_keyOnly "time_range" (segKeys_safeParam p) (by decide)]
    simp only [Bool.false_or, Bool.or_false]
    exact hasParam_timeParam p
  · unfold searchQueryParams
    rw [hasParam_append, hasParam_append, hasParam_append, hasParam_append,
      hasParam_append, hasParam_append]
    rw [show hasParam [("q", p.query), ("format", "json")] "safesearch" = false from rfl,
      hasParam_keyOnly "safesearch" (segKeys_catParam p) (by decide),
      hasParam_keyOnly "safesearch" (segKeys_engParam p) (by decide),
      hasParam_keyOnly "safesearch" (segKeys_langParam p) (by decide),
      hasParam_keyOnly "safesearch" (segKeys_pageParam p) (by decide),
      hasParam_keyOnly "safesearch" (segKeys_timeParam p) (by decide)]
    simp only [Bool.false_or, Bool.or_false]
    exact hasParam_safeParam p

/-- Claim C3, witness: a concrete argument set with a supplied-but-empty
engine list, an empty language, page 2, no time range, and `safesearch = 0`. -/
theorem c3_witness :
    (∀ n, (⟨"news", some ["a"], some [], some "", some 2, none, some 0⟩ :
        SearXNGSearchParams).pageno = some n → 0 < n) ∧
    ("q", "news") ∈ searchQueryParams
      ⟨"news", some ["a"], some [], some "", some 2, none, some 0⟩ ∧
    (hasParam (searchQueryParams
        ⟨"news", some ["a"], some [], some "", some 2, none, some 0⟩) "pageno" = true ↔
      (some 2 : Option Nat).isSome = true) ∧
    (hasParam (searchQueryParams
        ⟨"news", some ["a"], some [], some "", some 2, none, some 0⟩) "safesearch" = true ↔
      (some 0 : Option Nat).isSome = true) := by
  have hp : ∀ n, (⟨"news", some ["a"], some [], some "", some 2, none, some 0⟩ :
      SearXNGSearchParams).pageno = some n → 0 < n := by
    intro n h
    cases h
    decide
  have h := c3_search_query
    ⟨"news", some ["a"], some [], some "", some 2, none, some 0⟩ hp
  exact ⟨hp, h.1, h.2.2.2.2.2.1, h.2.2.2.2.2.2.2⟩

/-! ## Infrastructure for claim C5: the engine-grouping refinement -/

theorem contains_true_iff {l : List String} {x : String} :
    l.contains x = true ↔ x ∈ l :=
  List.elem_iff

theorem contains_false_iff {l : List String} {x : String} :
    l.contains x = false ↔ x ∉ l := by
  rw [← Bool.not_eq_true, not_iff_not]
  exact contains_true_iff

theorem contains_append_str (a b : List String) (x : String) :
    (a ++ b).contains x = (a.contains x || b.contains x) := by
  induction a with
  | nil => simp
  | cons y rest ih =>
    rw [List.cons_append, List.contains_cons, List.contains_cons, ih, Bool.or_assoc]

theorem dedupFirstAux_congr {seen1 seen2 l : List String}
    (h : ∀ x, seen1.contains x = seen2.contains x) :
    dedupFirstAux seen1 l = dedupFirstAux seen2 l := by
  induction l generalizing seen1 seen2 with
  | nil => rfl
  | cons c rest ih =>
    unfold dedupFirstAux
    rw [h c]
    by_cases hc : seen2.contains c = true
    · rw [if_pos hc, if_pos hc]
      exact ih h
    · rw [if_neg hc, if_neg hc]
      exact congrArg (List.cons c)
        (@ih (seen1 ++ [c]) (seen2 ++ [c])
          (fun x => by rw [contains_append_str, contains_append_str, h x]))

theorem dedupFirstAux_cons (seen : List String) (c : String) (rest : List String) :
    dedupFirstAux seen (c :: rest)
      = if seen.contains c = true then dedupFirstAux seen rest
        else c :: dedupFirstAux (seen ++ [c]) rest := rfl

theorem dedupFirstAux_append (seen l1 l2 : List String) :
    dedupFirstAux seen (l1 ++ l2)
      = dedupFirstAux seen l1 ++ dedupFirstAux (seen ++ l1) l2 := by
  induction l1 generalizing seen with
  | nil =>
    rw [List.nil_append, List.append_nil]
    rfl
  | cons c rest ih =>
    rw [List.cons_append, dedupFirstAux_cons, dedupFirstAux_cons]
    by_cases hc : seen.contains c = true
    · rw [if_pos hc, if_pos hc, ih]
      refine congrArg (fun t => dedupFirstAux seen rest ++ t)
        (@dedupFirstAux_congr (seen ++ rest) (seen ++ c :: rest) l2 ?_)
      intro x
      rw [contains_append_str, contains_append_str, List.contains_cons]
      by_cases hx : (x == c) = true
      · rw [beq_iff_eq] at hx
        subst hx
        rw [hc]
        rfl
      · rw [Bool.not_eq_true] at hx
        rw [hx, Bool.false_or]
    · rw [if_neg hc, if_neg hc, ih, List.cons_append, List.append_assoc]
      rfl

theorem mem_dedupFirstAux {seen l : List String} {x : String} :
    x ∈ dedupFirstAux seen l ↔ (x ∈ l ∧ seen.contains x = false) := by
  induction l generalizing seen with
  | nil => simp [dedupFirstAux]
  | cons c rest ih =>
    unfold dedupFirstAux
    by_cases hc : seen.contains c = true
    · rw [if_pos hc, ih]
      constructor
      · rintro ⟨hr, hs⟩
        exact ⟨List.mem_cons_of_mem c hr, hs⟩
      · rintro ⟨hcl, hs⟩
        rcases List.mem_cons.mp hcl with rfl | hr
        · rw [hc] at hs
          cases hs
        · exact ⟨hr, hs⟩
    · rw [if_neg hc]
      rw [Bool.not_eq_true] at hc
      constructor
      · intro hmem
        rcases List.mem_cons.mp hmem with rfl | hr
        · exact ⟨List.mem_cons_self x rest, hc⟩
        · obtain ⟨hrr, hs⟩ := ih.mp hr
          rw [contains_append_str] at hs
          rcases Bool.or_eq_false_iff.mp hs with ⟨hs1, _⟩
          exact ⟨List.mem_cons_of_mem c hrr, hs1⟩
      · rintro ⟨hcl, hs⟩
        rcases List.mem_cons.mp hcl with rfl | hr
        · exact List.mem_cons_self x _
        · by_cases hx : (x == c) = true
          · rw [beq_iff_eq] at hx
            subst hx
            exact List.mem_cons_self x _
          · rw [Bool.not_eq_true] at hx
            refine List.mem_cons_of_mem c (ih.mpr ⟨hr, ?_⟩)
            rw [contains_append_str, hs, List.contains_cons, hx]
            rfl

theorem dedupFirstAux_of_nodup {seen l : List String} (hl : l.Nodup) :
    dedupFirstAux seen l = l.filter (fun c => !(seen.contains c)) := by
  induction l generalizing seen with
  | nil => rfl
  | cons c rest ih =>
    rw [List.filter_cons]
    have hnd := List.nodup_cons.mp hl
    unfold dedupFirstAux
    by_cases hc : seen.contains c = true
    · rw [if_pos hc, hc]
      simp only [Bool.not_true, Bool.false_eq_true, if_false]
      exact ih hnd.2
    · rw [if_neg hc]
      rw [Bool.not_eq_true] at hc
      rw [hc]
      simp only [Bool.not_false, if_true]
      rw [ih hnd.2]
      refine congrArg _ (List.filter_congr ?_)
      intro x hx
      rw [contains_append_str, List.contains_cons]
      have hxc : (x == c) = false := by
        rw [beq_eq_false_iff_ne]
        intro hcon
        subst hcon
        exact hnd.1 hx
      rw [hxc]
      cases seen.contains x <;> rfl

theorem nodup_dedupFirstAux (seen l : List String) :
    (dedupFirstAux seen l).Nodup := by
  induction l generalizing seen with
  | nil => exact List.nodup_nil
  | cons c rest ih =>
    unfold dedupFirstAux
    by_cases hc : seen.contains c = true
    · rw [if_pos hc]
      exact ih seen
    · rw [if_neg hc]
      refine List.nodup_cons.mpr ⟨?_, ih (seen ++ [c])⟩
      intro hcon
      obtain ⟨_, hs⟩ := mem_dedupFirstAux.mp hcon
      rw [contains_append_str] at hs
      rcases Bool.or_eq_false_iff.mp hs with ⟨_, hs2⟩
      rw [List.contains_cons] at hs2
      simp at hs2

theorem lexLtB_cons (a b : Char) (as bs : List Char) :
    lexLtB (a :: as) (b :: bs)
      = if a < b then true else if b < a then false else lexLtB as bs := rfl

theorem lexLtB_irrefl (l : List Char) : lexLtB l l = false := by
  induction l with
  | nil => rfl
  | cons a as ih =>
    rw [lexLtB_cons, if_neg (lt_irrefl a), if_neg (lt_irrefl a)]
    exact ih

theorem lexLtB_append_congr {a b : List Char} (hab : preB a b = false)
    (hba : preB b a = false) (x y : List Char) :
    lexLtB (a ++ x) (b ++ y) = lexLtB a b := by
  induction a generalizing b with
  | nil => cases hab
  | cons c1 r1 ih =>
    cases b with
    | nil => cases hba
    | cons c2 r2 =>
      rw [List.cons_append, List.cons_append, lexLtB_cons, lexLtB_cons]
      by_cases h1 : c1 < c2
      · rw [if_pos h1, if_pos h1]
      · rw [if_neg h1, if_neg h1]
        by_cases h2 : c2 < c1
        · rw [if_pos h2, if_pos h2]
        · rw [if_neg h2, if_neg h2]
          have hcc : c1 = c2 := le_antisymm (not_lt.mp h2) (not_lt.mp h1)
          subst hcc
          unfold preB at hab hba
          rw [beq_self_eq_true, Bool.true_and] at hab hba
          exact ih hab hba

theorem orderedInsert_map_congr {α β : Type} (r : α → α → Prop) (rB : β → β → Prop)
    [DecidableRel r] [DecidableRel rB] (f : α → β) (x : α) (s : List α)
    (hagree : ∀ a ∈ x :: s, ∀ b ∈ x :: s, (rB (f a) (f b) ↔ r a b)) :
    List.orderedInsert rB (f x) (s.map f) = (List.orderedInsert r x s).map f := by
  induction s with
  | nil => rfl
  | cons y ys ih =>
    rw [List.map_cons]
    simp only [List.orderedInsert]
    by_cases h : r x y
    · have hB : rB (f x) (f y) :=
        (hagree x (List.mem_cons_self _ _) y
          (List.mem_cons_of_mem _ (List.mem_cons_self _ _))).mpr h
      rw [if_pos hB, if_pos h, List.map_cons, List.map_cons]
    · have hB : ¬ rB (f x) (f y) := fun hcon =>
        h ((hagree x (List.mem_cons_self _ _) y
          (List.mem_cons_of_mem _ (List.mem_cons_self _ _))).mp hcon)
      rw [if_neg hB, if_neg h, List.map_cons]
      refine congrArg (List.cons (f y)) (ih ?_)
      intro a ha b hb
      have hsub : ∀ z, z ∈ x :: ys → z ∈ x :: y :: ys := by
        intro z hz
        rcases List.mem_cons.mp hz with rfl | hz2
        · exact List.mem_cons_self _ _
        · exact List.mem_cons_of_mem _ (List.mem_cons_of_mem _ hz2)
      exact hagree a (hsub a ha) b (hsub b hb)

theorem insertionSort_map_congr {α β : Type} (r : α → α → Prop) (rB : β → β → Prop)
    [DecidableRel r] [DecidableRel rB] (f : α → β) (l : List α)
    (hagree : ∀ a ∈ l, ∀ b ∈ l, (rB (f a) (f b) ↔ r a b)) :
    List.insertionSort rB (l.map f) = (List.insertionSort r l).map f := by
  induction l with
  | nil => rfl
  | cons x xs ih =>
    rw [List.map_cons]
    simp only [List.insertionSort]
    rw [ih (fun a ha b hb =>
      hagree a (List.mem_cons_of_mem _ ha) b (List.mem_cons_of_mem _ hb))]
    refine orderedInsert_map_congr r rB f x (List.insertionSort r xs) ?_
    intro a ha b hb
    have hsub : ∀ z, z ∈ x :: List.insertionSort r xs → z ∈ x :: xs := by
      intro z hz
      rcases List.mem_cons.mp hz with rfl | hz2
      · exact List.mem_cons_self _ _
      · exact List.mem_cons_of_mem _ ((List.mem_insertionSort r).mp hz2)
    exact hagree a (hsub a ha) b (hsub b hb)

theorem jsMapGet_none_of_has_false {m : List (String × β)} {k : String}
    (h : jsMapHas m k = false) : jsMapGet m k = none := by
  unfold jsMapGet
  have hf : m.find? (fun p => p.1 == k) = none := by
    rw [List.find?_eq_none]
    intro p hp hpk
    unfold jsMapHas at h
    rw [List.any_eq_false] at h
    exact h p hp hpk
  rw [hf]
  rfl

theorem jsMapGet_eq_of_mem_nodup {m : List (String × β)} {k : String} {v : β}
    (hnd : (jsMapKeys m).Nodup) (hmem : (k, v) ∈ m) : jsMapGet m k = some v := by
  induction m with
  | nil => cases hmem
  | cons p rest ih =>
    unfold jsMapKeys at hnd
    rw [List.map_cons, List.nodup_cons] at hnd
    rcases List.mem_cons.mp hmem with rfl | hr
    · unfold jsMapGet
      rw [List.find?_cons_of_pos _ (by simp)]
      rfl
    · have hne : (p.1 == k) = false := by
        rw [beq_eq_false_iff_ne]
        intro hcon
        rw [hcon] at hnd
        exact hnd.1 (List.mem_map_of_mem Prod.fst hr)
      unfold jsMapGet
      rw [List.find?_cons_of_neg _ (by rw [hne]; simp)]
      exact ih hnd.2 hr

theorem addToCategory_formula {m : List (String × List SearXNGEngine)}
    (hnd : (jsMapKeys m).Nodup) (e : SearXNGEngine) (c : String) :
    addToCategory m e c
      = if jsMapHas m c = true then
          m.map (fun p => if p.1 == c then (p.1, p.2 ++ [e]) else p)
        else m ++ [(c, [e])] := by
  unfold addToCategory jsMapSet
  by_cases hc : jsMapHas m c = true
  · rw [if_pos hc, if_pos hc]
    refine List.map_congr_left ?_
    intro p hp
    by_cases hpk : (p.1 == c) = true
    · rw [hpk]
      simp only [if_true]
      have hk : p.1 = c := beq_iff_eq.mp hpk
      have hget : jsMapGet m c = some p.2 := by
        rw [← hk]
        exact jsMapGet_eq_of_mem_nodup hnd hp
      rw [hget]
      rw [hk]
      rfl
    · rw [Bool.not_eq_true] at hpk
      rw [hpk]
      simp
  · rw [if_neg hc, if_neg hc]
    rw [Bool.not_eq_true] at hc
    rw [jsMapGet_none_of_has_false hc]
    rfl

theorem jsMapKeys_map_update (m : List (String × List SearXNGEngine))
    (e : SearXNGEngine) (c : String) :
    jsMapKeys (m.map (fun p => if p.1 == c then (p.1, p.2 ++ [e]) else p))
      = jsMapKeys m := by
  unfold jsMapKeys
  rw [List.map_map]
  refine List.map_congr_left ?_
  intro p _
  by_cases hpk : (p.1 == c) = true
  · rw [Function.comp, hpk]
    simp
  · rw [Bool.not_eq_true] at hpk
    rw [Function.comp, hpk]
    simp

theorem catsFold_formula (e : SearXNGEngine) :
    ∀ (cats : List String) (m : List (String × List SearXNGEngine)),
      cats.Nodup → (jsMapKeys m).Nodup →
      cats.foldl (fun m c => addToCategory m e c) m
        = m.map (fun p => if (cats.contains p.1) = true then (p.1, p.2 ++ [e]) else p)
          ++ (cats.filter (fun c => !((jsMapKeys m).contains c))).map
              (fun c => (c, [e])) := by
  intro cats
  induction cats with
  | nil =>
    intro m _ _
    rw [List.foldl_nil, List.filter_nil, List.map_nil, List.append_nil]
    have h : m.map (fun p =>
        if (([] : List String).contains p.1) = true then (p.1, p.2 ++ [e]) else p)
        = m.map (fun p => p) := by
      refine List.map_congr_left ?_
      intro p _
      rfl
    rw [h, List.map_id']
  | cons c cs ih =>
    intro m hnd hk
    have hcs : cs.contains c = false :=
      contains_false_iff.mpr (List.nodup_cons.mp hnd).1
    rw [List.foldl_cons]
    by_cases hc : jsMapHas m c = true
    · have hm1 : addToCategory m e c
          = m.map (fun p => if p.1 == c then (p.1, p.2 ++ [e]) else p) := by
        rw [addToCategory_formula hk, if_pos hc]
      have hk1 : (jsMapKeys (addToCategory m e c)).Nodup := by
        rw [hm1, jsMapKeys_map_update]
        exact hk
      rw [ih (addToCategory m e c) (List.nodup_cons.mp hnd).2 hk1]
      rw [hm1, jsMapKeys_map_update, List.map_map]
      have hcKeys : (jsMapKeys m).contains c = true := by
        rw [← jsMapHas_eq_contains]
        exact hc
      have hpoint : m.map ((fun p =>
            if (cs.contains p.1) = true then (p.1, p.2 ++ [e]) else p)
          ∘ (fun p => if p.1 == c then (p.1, p.2 ++ [e]) else p))
          = m.map (fun p =>
            if ((c :: cs).contains p.1) = true then (p.1, p.2 ++ [e]) else p) := by
        refine List.map_congr_left ?_
        intro p _
        rw [Function.comp]
        by_cases hpk : (p.1 == c) = true
        · have hp1 : p.1 = c := beq_iff_eq.mp hpk
          rw [hpk]
          simp only [if_true]
          rw [hp1, hcs]
          simp only [Bool.false_eq_true, if_false]
          rw [List.contains_cons, beq_self_eq_true, Bool.true_or]
          simp
        · rw [Bool.not_eq_true] at hpk
          rw [hpk]
          simp only [Bool.false_eq_true, if_false]
          rw [List.contains_cons, hpk, Bool.false_or]
      have hfilter : (c :: cs).filter (fun c2 => !((jsMapKeys m).contains c2))
          = cs.filter (fun c2 => !((jsMapKeys m).contains c2)) := by
        rw [List.filter_cons, hcKeys]
        simp
      rw [hpoint, hfilter]
    · have hm1 : addToCategory m e c = m ++ [(c, [e])] := by
        rw [addToCategory_formula hk, if_neg hc]
      have hcKeys : (jsMapKeys m).contains c = false := by
        rw [← jsMapHas_eq_contains]
        exact Bool.not_eq_true _ ▸ hc
      have hcMem : c ∉ jsMapKeys m := contains_false_iff.mp hcKeys
      have hk1 : (jsMapKeys (addToCategory m e c)).Nodup := by
        rw [hm1]
        unfold jsMapKeys
        rw [List.map_append]
        simp only [List.map_cons, List.map_nil]
        rw [List.nodup_append]
        refine ⟨hk, List.nodup_singleton c, ?_⟩
        intro x hx hx2
        rw [List.mem_singleton.mp hx2] at hx
        exact hcMem hx
      rw [ih (addToCategory m e c) (List.nodup_cons.mp hnd).2 hk1]
      rw [hm1]
      rw [List.map_append]
      simp only [List.map_cons, List.map_nil]
      rw [hcs]
      simp only [Bool.false_eq_true, if_false]
      have hkeys1 : jsMapKeys (m ++ [(c, [e])]) = jsMapKeys m ++ [c] := by
        unfold jsMapKeys
        rw [List.map_append]
        rfl
      rw [hkeys1]
      have hfilter2 : cs.filter (fun c2 => !((jsMapKeys m ++ [c]).contains c2))
          = cs.filter (fun c2 => !((jsMapKeys m).contains c2)) := by
        refine List.filter_congr ?_
        intro x hx
        rw [contains_append_str]
        have hxc : [c].contains x = false := by
          rw [contains_false_iff, List.mem_singleton]
          intro hcon
          subst hcon
          exact (List.nodup_cons.mp hnd).1 hx
        rw [hxc, Bool.or_false]
      rw [hfilter2]
      have hpoint2 : m.map (fun p =>
            if (cs.contains p.1) = true then (p.1, p.2 ++ [e]) else p)
          = m.map (fun p =>
            if ((c :: cs).contains p.1) = true then (p.1, p.2 ++ [e]) else p) := by
        refine List.map_congr_left ?_
        intro p hp
        have hpk : (p.1 == c) = false := by
          rw [beq_eq_false_iff_ne]
          intro hcon
          rw [← hcon] at hcMem
          exact hcMem (List.mem_map_of_mem Prod.fst hp)
        rw [List.contains_cons, hpk, Bool.false_or]
      rw [hpoint2]
      have hfc : ((c :: cs).filter (fun c2 => !((jsMapKeys m).contains c2)))
          = c :: cs.filter (fun c2 => !((jsMapKeys m).contains c2)) := by
        rw [List.filter_cons, hcKeys]
        simp
      rw [hfc]
      rw [List.map_cons, List.append_assoc]
      rfl

theorem keys_specGroups (es : List SearXNGEngine) :
    jsMapKeys (specGroups es) = dedupCats es := by
  unfold specGroups jsMapKeys
  rw [List.map_map]
  exact List.map_id' _

theorem allCats_snoc (es : List SearXNGEngine) (e : SearXNGEngine) :
    allCats (es ++ [e]) = allCats es ++ e.categories := by
  unfold allCats
  rw [List.map_append, List.flatten_append]
  simp

theorem enginesOfCat_snoc (es : List SearXNGEngine) (e : SearXNGEngine) (c : String) :
    enginesOfCat (es ++ [e]) c
      = enginesOfCat es c
          ++ (if (e.categories.contains c) = true then [e] else []) := by
  unfold enginesOfCat
  rw [List.filter_append]
  refine congrArg _ ?_
  rw [List.filter_cons]
  by_cases hc : (e.categories.contains c) = true
  · rw [hc]
    simp
  · rw [Bool.not_eq_true] at hc
    rw [hc]
    simp

theorem enginesOfCat_nil_of_not_mem {es : List SearXNGEngine} {c : String}
    (hc : c ∉ allCats es) : enginesOfCat es c = [] := by
  unfold enginesOfCat
  rw [List.filter_eq_nil_iff]
  intro e he hcon
  refine hc ?_
  unfold allCats
  rw [List.mem_flatten]
  exact ⟨e.categories, List.mem_map_of_mem _ he, contains_true_iff.mp hcon⟩

theorem mem_dedupCats {es : List SearXNGEngine} {x : String} :
    x ∈ dedupCats es ↔ x ∈ allCats es := by
  unfold dedupCats dedupFirst
  rw [mem_dedupFirstAux]
  constructor
  · exact fun h => h.1
  · exact fun h => ⟨h, rfl⟩

theorem dedupCats_snoc (es : List SearXNGEngine) (e : SearXNGEngine)
    (hnd : e.categories.Nodup) :
    dedupCats (es ++ [e])
      = dedupCats es
          ++ e.categories.filter (fun c => !((allCats es).contains c)) := by
  unfold dedupCats dedupFirst
  rw [allCats_snoc, dedupFirstAux_append]
  refine congrArg _ ?_
  rw [List.nil_append]
  exact dedupFirstAux_of_nodup hnd

theorem specGroups_snoc (es : List SearXNGEngine) (e : SearXNGEngine)
    (hnd : e.categories.Nodup) :
    specGroups (es ++ [e])
      = (specGroups es).map (fun p =>
          if (e.categories.contains p.1) = true then (p.1, p.2 ++ [e]) else p)
        ++ (e.categories.filter (fun c => !((dedupCats es).contains c))).map
            (fun c => (c, [e])) := by
  unfold specGroups
  rw [dedupCats_snoc es e hnd, List.map_append, List.map_map]
  have hpart1 : (dedupCats es).map (fun c => (c, enginesOfCat (es ++ [e]) c))
      = (dedupCats es).map ((fun p =>
          if (e.categories.contains p.1) = true then (p.1, p.2 ++ [e]) else p)
        ∘ (fun c => (c, enginesOfCat es c))) := by
    refine List.map_congr_left ?_
    intro c _
    rw [Function.comp]
    simp only
    rw [enginesOfCat_snoc]
    by_cases hc : (e.categories.contains c) = true
    · rw [hc]
      simp
    · rw [Bool.not_eq_true] at hc
      rw [hc]
      simp
  have hcont : ∀ x, (allCats es).contains x = (dedupCats es).contains x := by
    intro x
    by_cases hmem : x ∈ allCats es
    · rw [contains_true_iff.mpr hmem, contains_true_iff.mpr (mem_dedupCats.mpr hmem)]
    · rw [contains_false_iff.mpr hmem,
        contains_false_iff.mpr (fun hcon => hmem (mem_dedupCats.mp hcon))]
  have hpart2 : (e.categories.filter (fun c => !((allCats es).contains c))).map
        (fun c => (c, enginesOfCat (es ++ [e]) c))
      = (e.categories.filter (fun c => !((dedupCats es).contains c))).map
          (fun c => (c, [e])) := by
    rw [List.filter_congr (fun x _ => by rw [hcont x])]
    refine List.map_congr_left ?_
    intro c hc
    obtain ⟨hce, hcna⟩ := List.mem_filter.mp hc
    have hna : c ∉ allCats es := by
      intro hcon
      rw [contains_true_iff.mpr (mem_dedupCats.mpr hcon)] at hcna
      cases hcna
    rw [enginesOfCat_snoc, enginesOfCat_nil_of_not_mem hna,
      if_pos (contains_true_iff.mpr hce)]
    rfl
  rw [hpart1, hpart2]

theorem buildCategoryMap_eq_specGroups (es : List SearXNGEngine)
    (h : ∀ e ∈ es, e.categories.Nodup) :
    buildCategoryMap es = specGroups es := by
  induction es using List.reverseRecOn with
  | nil => rfl
  | append_singleton es e ih =>
    have h1 : ∀ e2 ∈ es, e2.categories.Nodup :=
      fun e2 he2 => h e2 (List.mem_append_left _ he2)
    have h2 : e.categories.Nodup :=
      h e (List.mem_append_right _ (List.mem_singleton.mpr rfl))
    unfold buildCategoryMap
    rw [List.foldl_append, List.foldl_cons, List.foldl_nil]
    rw [show List.foldl addEngineCats [] es = specGroups es from ih h1]
    unfold addEngineCats
    rw [catsFold_formula e e.categories (specGroups es) h2
      (by rw [keys_specGroups]; exact nodup_dedupFirstAux [] _)]
    rw [keys_specGroups]
    exact (specGroups_snoc es e h2).symm

theorem sortedEntries_eq (engines : List SearXNGEngine)
    (hnd : ∀ e ∈ engines, e.categories.Nodup)
    (hpre : ∀ a ∈ allCats engines, ∀ b ∈ allCats engines,
      a ≠ b → preBs a b = false) :
    sortedEntries engines
      = (sortedCats engines).map (fun c => (c, enginesOfCat engines c)) := by
  unfold sortedEntries sortedCats
  rw [buildCategoryMap_eq_specGroups engines hnd]
  unfold specGroups
  refine insertionSort_map_congr catLe entryLe
    (fun c => (c, enginesOfCat engines c)) (dedupCats engines) ?_
  intro a ha b hb
  unfold entryLe catLe
  suffices h : strLtB (jsEntryKey (b, enginesOfCat engines b))
      (jsEntryKey (a, enginesOfCat engines a)) = strLtB b a by
    rw [h]
  by_cases hab : a = b
  · subst hab
    unfold strLtB
    rw [lexLtB_irrefl, lexLtB_irrefl]
  · have hba : preBs b a = false :=
      hpre b (mem_dedupCats.mp hb) a (mem_dedupCats.mp ha) (Ne.symm hab)
    have hab2 : preBs a b = false :=
      hpre a (mem_dedupCats.mp ha) b (mem_dedupCats.mp hb) hab
    unfold jsEntryKey strLtB
    simp only
    rw [String.data_append, String.data_append, String.data_append,
      String.data_append, List.append_assoc, List.append_assoc]
    exact lexLtB_append_congr hba hab2 _ _

/-- Claim C5 (amended): for every engine list whose engines carry
duplicate-free category lists and in which no category name is a proper prefix
of another, `formatEngines` of `src/index.ts` renders exactly the
specification formatter: one heading per distinct category in lexicographic
order, under each heading every engine belonging to that category (an engine
with `n` categories appears in all `n` groups) with its `✓`/`✗`
enabled/disabled marker; the plugin module's `formatEngines` renders the same
grouping and order but lists bare engine names, without markers.  Without the
no-proper-prefix proviso the default JS sort can order headings
non-lexicographically (see the counterexample). -/
theorem c5_engine_grouping (engines : List SearXNGEngine)
    (hnd : ∀ e ∈ engines, e.categories.Nodup)
    (hpre : ∀ a ∈ allCats engines, ∀ b ∈ allCats engines,
      a ≠ b → preBs a b = false) :
    formatEngines engines = formatEnginesSpec engines ∧
    formatEnginesX engines = formatEnginesSpecX engines := by
  have hs := sortedEntries_eq engines hnd hpre
  constructor
  · unfold formatEngines formatEnginesSpec
    by_cases hlen : (engines.length == 0) = true
    · rw [if_pos hlen, if_pos hlen]
    · rw [if_neg hlen, if_neg hlen]
      rw [hs, List.map_map]
      rfl
  · unfold formatEnginesX formatEnginesSpecX
    by_cases hlen : (engines.length == 0) = true
    · rw [if_pos hlen, if_pos hlen]
    · rw [if_neg hlen, if_neg hlen]
      rw [hs, List.map_map]
      rfl

/-- Claim C5, witness: a concrete engine list (one engine in two categories,
one disabled) satisfying both provisos, on which the code formatter equals the
specification formatter. -/
theorem c5_witness :
    (∀ e ∈ ([⟨"google", ["general", "images"], true⟩,
        ⟨"bing", ["general"], false⟩] : List SearXNGEngine),
      e.categories.Nodup) ∧
    (∀ a ∈ allCats [⟨"google", ["general", "images"], true⟩,
        ⟨"bing", ["general"], false⟩],
      ∀ b ∈ allCats [⟨"google", ["general", "images"], true⟩,
        ⟨"bing", ["general"], false⟩],
      a ≠ b → preBs a b = false) ∧
    formatEngines [⟨"google", ["general", "images"], true⟩,
        ⟨"bing", ["general"], false⟩]
      = formatEnginesSpec [⟨"google", ["general", "images"], true⟩,
        ⟨"bing", ["general"], false⟩] := by
  refine ⟨by decide, by decide, ?_⟩
  exact (c5_engine_grouping
    [⟨"google", ["general", "images"], true⟩, ⟨"bing", ["general"], false⟩]
    (by decide) (by decide)).1

/-- Claim C5 (counterexample): the plugin module's engine formatter lists an
enabled engine without any `✓` marker, and on categories `"x"`, `"x!"` (where
`"x"` sorts lexicographically before `"x!"`, third conjunct) the
`src/index.ts` formatter renders the `X!` heading first — JS default sort
compares the stringified `[category, engines]` pairs, and `"x!,…"` precedes
`"x,…"` because `'!' < ','`. -/
theorem c5_counterexample :
    formatEnginesX [⟨"google", ["general"], true⟩]
      = "Available engines (1 total):\n\n## General\n  google" ∧
    formatEngines [⟨"a", ["x"], true⟩, ⟨"b", ["x!"], true⟩]
      = "Available engines (2 total):\n\n## X!\n  ✓ b\n\n## X\n  ✓ a" ∧
    strLtB "x" "x!" = true := by
  exact ⟨by decide, by decide, by decide⟩
